import Mathlib

/-!
Verification of the text-transformation core of `build.py` (static site
generator).  Strings are modelled as `List Char`; each Python function used by
the claims is translated into an executable Lean definition.  Regex-based
substitutions are modelled by explicit left-to-right scanners that mirror the
semantics of `re.sub` for the concrete patterns appearing in the source
(non-greedy bodies = first closing occurrence, replacement text never
rescanned, scan resumes after each match).
-/

set_option maxRecDepth 100000

/-- Strings are lists of characters. -/
abbrev Str := List Char

/-- Convert a Lean string literal to the `List Char` representation. -/
def chars (s : String) : Str := s.data

/-- `sqC` is the single-quote character (ASCII 39). -/
def sqC : Char := Char.ofNat 39

/-- The left-brace character (ASCII 123). -/
def lbr : Char := Char.ofNat 123

/-- The right-brace character (ASCII 125). -/
def rbr : Char := Char.ofNat 125

/-- `isPfx pat s` : `pat` is a prefix of `s` (Python `str.startswith`). -/
def isPfx : Str → Str → Bool
  | [], _ => true
  | _ :: _, [] => false
  | p :: ps, c :: cs => p = c && isPfx ps cs

/-- Python `str.endswith`. -/
def isSfx (pat s : Str) : Bool := isPfx pat.reverse s.reverse

/-- Number of positions of `s` at which `pat` starts (pat nonempty in all uses). -/
def countOccur (pat : Str) : Str → Nat
  | [] => 0
  | s@(_ :: rest) => (if isPfx pat s then 1 else 0) + countOccur pat rest

/-- `pat` occurs somewhere in `s` (as a contiguous substring). -/
def occursB (pat : Str) (s : Str) : Bool := decide (countOccur pat s ≠ 0)

/-- Python whitespace (`str.strip()` / regex `\s`), ASCII range. -/
def isPySpace (c : Char) : Bool :=
  c = ' ' || c = '\t' || c = '\n' || c = '\r' || c = Char.ofNat 11 || c = Char.ofNat 12

/-- Python `\w` word character (ASCII range, as used by this source). -/
def isWordChar (c : Char) : Bool := c.isAlphanum || c = '_'

/-- Strip all leading and trailing characters satisfying `p` (Python `strip`). -/
def stripWhile (p : Char → Bool) (s : Str) : Str :=
  ((s.dropWhile p).reverse.dropWhile p).reverse

/-- Python `str.strip()` (whitespace). -/
def pyTrim (s : Str) : Str := stripWhile isPySpace s

/-- Python `str.strip(q)` for a single character `q`: removes ALL leading and
ALL trailing copies of `q`, independently on each end. -/
def pyStripChar (q : Char) (s : Str) : Str := stripWhile (· = q) s

/-- Find the first occurrence of `close` in `s`; return the text before it and
the text after it.  This is exactly the semantics of a non-greedy `(.*?)`
followed by the literal `close` (DOTALL: any character allowed before it). -/
def findClose (close : Str) : Str → Option (Str × Str)
  | [] => none
  | s@(c :: rest) =>
    if isPfx close s then some ([], s.drop close.length)
    else
      match findClose close rest with
      | some (content, r) => some (c :: content, r)
      | none => none

/-- Like `findClose` but the content may not contain a newline: semantics of a
non-greedy `(.*?)` without DOTALL followed by the literal `close`. -/
def findCloseNl (close : Str) : Str → Option (Str × Str)
  | [] => none
  | s@(c :: rest) =>
    if isPfx close s then some ([], s.drop close.length)
    else if c = '\n' then none
    else
      match findCloseNl close rest with
      | some (content, r) => some (c :: content, r)
      | none => none

/-- Decimal digits of a natural number (Python `str(n)`). -/
def natStr (n : Nat) : Str := Nat.toDigits 10 n

/-- `c :: first field` of a split result (helper for splitting scanners). -/
def consHead (c : Char) : List Str → List Str
  | [] => [[c]]
  | f :: fs => (c :: f) :: fs

/-- Python `content.split("---", budget)`: split on at most `budget`
occurrences of `---`, scanning left to right, non-overlapping. -/
def splitDash : Nat → Str → List Str
  | _, [] => [[]]
  | 0, s => [s]
  | b + 1, '-' :: '-' :: '-' :: rest => [] :: splitDash b rest
  | b + 1, c :: rest => consHead c (splitDash (b + 1) rest)

/-- Python `text.split("\n")` (no limit). -/
def splitNl : Str → List Str
  | [] => [[]]
  | c :: rest => if c = '\n' then [] :: splitNl rest else consHead c (splitNl rest)

/-- Python `"\n".join`-style join with an arbitrary separator. -/
def joinSep (sep : Str) : List Str → Str
  | [] => []
  | [x] => x
  | x :: xs => x ++ sep ++ joinSep sep xs

/-- Concatenate a list of strings (Python `"".join`). -/
def joinAll : List Str → Str
  | [] => []
  | x :: xs => x ++ joinAll xs

/-- One step of Python `str.replace`: fuel-bounded scanner; `fuel = s.length`
is always enough since every step consumes at least one input character. -/
def replA : Nat → Str → Str → Str → Str
  | 0, _, _, s => s
  | _ + 1, _, _, [] => []
  | f + 1, pat, rep, s@(c :: rest) =>
    if isPfx pat s then rep ++ replA f pat rep (s.drop pat.length)
    else c :: replA f pat rep rest

/-- Python `s.replace(pat, rep)` (all non-overlapping occurrences, left to
right, replacement text not rescanned). -/
def replaceAll (pat rep s : Str) : Str := replA s.length pat rep s

-- =====================================================================
-- Tufte conversions: convert_sidenotes / convert_newthought (build.py 246-302)
-- =====================================================================

/-- Scanner for one `re.sub(open(.*?)close, repl, html, flags=re.DOTALL)` pass
with a running counter threaded through the replacements, mirroring
`convert_sidenotes`: the counter is incremented at each match and the id uses
the incremented value.  Fuel `= s.length` always suffices. -/
def noteScan (openS closeS : Str) (mk : Nat → Str → Str) :
    Nat → Nat → Str → Str × Nat
  | 0, n, s => (s, n)
  | _ + 1, n, [] => ([], n)
  | f + 1, n, s@(c :: rest) =>
    if isPfx openS s then
      match findClose closeS (s.drop openS.length) with
      | some (content, r) =>
        let (out, n2) := noteScan openS closeS mk f (n + 1) r
        (mk (n + 1) content ++ out, n2)
      | none =>
        let (out, n2) := noteScan openS closeS mk f n rest
        (c :: out, n2)
    else
      let (out, n2) := noteScan openS closeS mk f n rest
      (c :: out, n2)

/-- Replacement emitted by `replace_sidenote` for counter value `n`. -/
def snHtml (n : Nat) (content : Str) : Str :=
  chars "<label for=\"sn-" ++ natStr n ++
  chars "\" class=\"margin-toggle sidenote-number\"></label><input type=\"checkbox\" id=\"sn-" ++
  natStr n ++ chars "\" class=\"margin-toggle\"/><span class=\"sidenote\">" ++
  content ++ chars "</span>"

/-- Replacement emitted by `replace_marginnote` for counter value `n`. -/
def mnHtml (n : Nat) (content : Str) : Str :=
  chars "<label for=\"mn-" ++ natStr n ++
  chars "\" class=\"margin-toggle\">&#8853;</label><input type=\"checkbox\" id=\"mn-" ++
  natStr n ++ chars "\" class=\"margin-toggle\"/><span class=\"marginnote\">" ++
  content ++ chars "</span>"

/-- `convert_sidenotes` (build.py 246-285): first a full pass replacing all
`{sn}...{/sn}` spans, then a second full pass over the result replacing all
`{mn}...{/mn}` spans; the counter is shared between the two passes. -/
def convert_sidenotes (html : Str) : Str :=
  let (t, k) :=
    noteScan (chars "\x7bsn\x7d") (chars "\x7b/sn\x7d") snHtml html.length 0 html
  (noteScan (chars "\x7bmn\x7d") (chars "\x7b/mn\x7d") mnHtml t.length k t).1

/-- All note identifiers appearing in `s`, in textual order: the text between
each `id="` marker and the following `"`. -/
def idScan : Nat → Str → List Str
  | 0, _ => []
  | _ + 1, [] => []
  | f + 1, s@(_ :: rest) =>
    if isPfx (chars "id=\"") s then
      match findClose (chars "\"") (s.drop 4) with
      | some (idv, r) => idv :: idScan f r
      | none => idScan f rest
    else idScan f rest

/-- Identifiers assigned by a conversion, in document order. -/
def noteIds (s : Str) : List Str := idScan s.length s

/-- The wrapper emitted by `convert_newthought`. -/
def ntWrap (content : Str) : Str :=
  chars "<span class=\"newthought\">" ++ content ++ chars "</span>"

/-- Scanner for `re.sub(r"\{nt\}(.*?)\{/nt\}", ...)` WITHOUT re.DOTALL: the
non-greedy body cannot cross a newline (`findCloseNl`). -/
def ntScan : Nat → Str → Str
  | 0, s => s
  | _ + 1, [] => []
  | f + 1, s@(c :: rest) =>
    if isPfx (chars "\x7bnt\x7d") s then
      match findCloseNl (chars "\x7b/nt\x7d") (s.drop 4) with
      | some (content, r) => ntWrap content ++ ntScan f r
      | none => c :: ntScan f rest
    else c :: ntScan f rest

/-- `convert_newthought` (build.py 288-302). -/
def convert_newthought (html : Str) : Str := ntScan html.length html

/-- An input with a sidenote, then a marginnote, then a sidenote. -/
def c1Input : Str :=
  chars "a\x7bsn\x7dS1\x7b/sn\x7d b\x7bmn\x7dM\x7b/mn\x7d c\x7bsn\x7dS2\x7b/sn\x7d d"

/-- C1, counterexample: for a sidenote followed by a marginnote followed by a
sidenote, the identifiers generated by `convert_sidenotes`, read in
left-to-right document order, are NOT `sn-1, mn-2, sn-3` (they are
`sn-1, mn-3, sn-2`: the claimed single left-to-right numbering fails). -/
theorem c1_counterexample :
    noteIds (convert_sidenotes c1Input) ≠ [chars "sn-1", chars "mn-2", chars "sn-3"] := by
  decide

/-- C1, amended: `convert_sidenotes` assigns identifiers from one counter
shared between sidenotes and marginnotes, but in two passes — all sidenotes
are numbered first in left-to-right order, then all marginnotes continue the
shared counter in a second left-to-right pass.  For an input containing a
sidenote followed by a marginnote followed by a sidenote the generated ids in
document order are `sn-1`, `mn-3`, `sn-2` (the marginnote's number continues
the counter after both sidenotes, showing the counter is shared). -/
theorem c1_amended :
    noteIds (convert_sidenotes c1Input) = [chars "sn-1", chars "mn-3", chars "sn-2"] := by
  decide

-- =====================================================================
-- Table of contents: generate_toc_html (build.py 556-582) and the
-- page-assembly ToC flag (build.py 784-785, MIN_HEADINGS_FOR_TOC = 3)
-- =====================================================================

/-- A heading record: level (2 or 3), slug identifier, plain text. -/
structure Heading where
  level : Nat
  id : Str
  text : Str
deriving DecidableEq, Repr

/-- Minimum number of headings required to show the table of contents. -/
def MIN_HEADINGS_FOR_TOC : Nat := 3

/-- One `<li>` line of the ToC for a heading. -/
def tocLine (h : Heading) : Str :=
  chars "<li class=\"" ++
  (if h.level = 2 then chars "toc-h2" else chars "toc-h3") ++
  chars "\"><a href=\"#" ++ h.id ++ chars "\">" ++ h.text ++ chars "</a></li>"

/-- `generate_toc_html` (build.py 556-582). -/
def generate_toc_html (headings : List Heading) : Str :=
  if headings = [] then []
  else
    joinSep (chars "\n")
      ([chars "<nav class=\"toc\" aria-label=\"Table of contents\">",
        chars "<ul class=\"toc-list\">"] ++
       headings.map tocLine ++
       [chars "</ul>", chars "</nav>"])

/-- The ToC-display flag computed by the page-assembly layer
(`has_toc = len(headings) >= MIN_HEADINGS_FOR_TOC`, build.py 785). -/
def hasToc (headings : List Heading) : Bool :=
  decide (MIN_HEADINGS_FOR_TOC ≤ headings.length)

/-- C9: `generate_toc_html []` is the empty string; every heading list with
fewer than 3 elements has the ToC-display flag false; and a 2-element list,
while suppressed, still renders a non-empty ToC string. -/
theorem c9_toc_suppression :
    generate_toc_html [] = [] ∧
    (∀ hs : List Heading, hs.length < 3 → hasToc hs = false) ∧
    (∀ hs : List Heading, hs.length = 2 →
      hasToc hs = false ∧ generate_toc_html hs ≠ []) := by
  refine ⟨rfl, ?_, ?_⟩
  · intro hs h
    simp [hasToc, MIN_HEADINGS_FOR_TOC]
    omega
  · intro hs h
    constructor
    · simp [hasToc, MIN_HEADINGS_FOR_TOC]
      omega
    · match hs, h with
      | [a, b], _ =>
        simp [generate_toc_html, joinSep, chars]

/-- Witness for C9 at a concrete two-heading list. -/
theorem c9_toc_suppression_witness :
    hasToc [⟨2, chars "a", chars "A"⟩, ⟨3, chars "b", chars "B"⟩] = false ∧
    generate_toc_html [⟨2, chars "a", chars "A"⟩, ⟨3, chars "b", chars "B"⟩] ≠ [] :=
  c9_toc_suppression.2.2 [⟨2, chars "a", chars "A"⟩, ⟨3, chars "b", chars "B"⟩] rfl

-- =====================================================================
-- Frontmatter parsing: parse_frontmatter (build.py 150-199)
-- =====================================================================

/-- The `location` string used in error messages: `" in {filepath}"` when an
origin is given, empty otherwise. -/
def locOf : Option Str → Str
  | some o => chars " in " ++ o
  | none => []

/-- The message of the missing-closing-delimiter FrontmatterError. -/
def errMissing (loc : Str) : Str :=
  chars "Malformed frontmatter" ++ loc ++ chars ": missing closing " ++
  [sqC] ++ chars "---" ++ [sqC]

/-- The message of the invalid-line FrontmatterError for line number `n` and
stripped line text `t`. -/
def invalidMsg (loc : Str) (n : Nat) (t : Str) : Str :=
  chars "Invalid frontmatter" ++ loc ++ chars " at line " ++ natStr n ++
  chars ": expected " ++ [sqC] ++ chars "key: value" ++ [sqC] ++
  chars ", got " ++ [sqC] ++ t ++ [sqC]

/-- Python `line.split(":", 1)`: text before the first `:` and text after. -/
def splitColon1 : Str → Str × Str
  | [] => ([], [])
  | c :: rest =>
    if c = ':' then ([], rest)
    else
      let (k, v) := splitColon1 rest
      (c :: k, v)

/-- The value post-processing `value.strip().strip('"').strip("'")`. -/
def stripVal (v : Str) : Str := pyStripChar sqC (pyStripChar '"' (pyTrim v))

/-- Python dict assignment `d[k] = v`: overwrite in place or append. -/
def insertKV (k v : Str) : List (Str × Str) → List (Str × Str)
  | [] => [(k, v)]
  | (k0, v0) :: rest =>
    if k0 = k then (k0, v) :: rest else (k0, v0) :: insertKV k v rest

/-- The `for line_num, line in enumerate(fm_text.split("\n"), start=2)` loop
of `parse_frontmatter`: blank (after strip) lines skipped, a line without `:`
raises, otherwise split on the first `:` and store the stripped key/value. -/
def processFmLines (loc : Str) :
    List Str → Nat → List (Str × Str) → Except Str (List (Str × Str))
  | [], _, acc => .ok acc
  | line :: rest, n, acc =>
    let t := pyTrim line
    if t = [] then processFmLines loc rest (n + 1) acc
    else if ':' ∈ t then
      let kv := splitColon1 t
      processFmLines loc rest (n + 1) (insertKV (pyTrim kv.1) (stripVal kv.2) acc)
    else .error (invalidMsg loc n t)

/-- `parse_frontmatter` (build.py 150-199).  Returns the metadata mapping and
the body, or the FrontmatterError message. -/
def parse_frontmatter (content : Str) (origin : Option Str) :
    Except Str (List (Str × Str) × Str) :=
  let loc := locOf origin
  if isPfx (chars "---") content then
    match splitDash 2 content with
    | _ :: p1 :: p2 :: _ =>
      match processFmLines loc (splitNl (pyTrim p1)) 2 [] with
      | .ok fm => .ok (fm, pyTrim p2)
      | .error e => .error e
    | _ => .error (errMissing loc)
  else .ok ([], content)

-- ---------------------------------------------------------------------
-- Substring lemmas
-- ---------------------------------------------------------------------

theorem isPfx_append_self (p t : Str) : isPfx p (p ++ t) = true := by
  induction p with
  | nil => rfl
  | cons c cs ih => simp [isPfx, ih]

theorem countOccur_cons (pat : Str) (c : Char) (s : Str) :
    countOccur pat (c :: s) = (if isPfx pat (c :: s) then 1 else 0) + countOccur pat s := rfl

theorem countOccur_append_le (pat a b : Str) :
    countOccur pat b ≤ countOccur pat (a ++ b) := by
  induction a with
  | nil => simp
  | cons c cs ih => rw [List.cons_append, countOccur_cons]; omega

theorem countOccur_self_append (pat t : Str) (hp : pat ≠ []) :
    1 ≤ countOccur pat (pat ++ t) := by
  match pat, hp with
  | c :: cs, _ =>
    rw [List.cons_append, countOccur_cons]
    rw [← List.cons_append, isPfx_append_self]
    simp

theorem occursB_iff (pat s : Str) : occursB pat s = true ↔ countOccur pat s ≠ 0 := by
  simp [occursB]

theorem occursB_append_right (p a b : Str) (h : occursB p b = true) :
    occursB p (a ++ b) = true := by
  rw [occursB_iff] at h ⊢
  have := countOccur_append_le p a b
  omega

theorem occursB_sandwich (p a t : Str) (ha : a ≠ []) :
    occursB p (a ++ p ++ t) = true := by
  rw [occursB_iff]
  match p with
  | [] =>
    match a, ha with
    | c :: cs, _ =>
      rw [List.append_nil, List.cons_append, countOccur_cons]
      simp [isPfx]
  | q :: qs =>
    have h1 := countOccur_self_append (q :: qs) t (by simp)
    have h2 := countOccur_append_le (q :: qs) a ((q :: qs) ++ t)
    rw [List.append_assoc]
    omega

-- ---------------------------------------------------------------------
-- C3: missing closing delimiter
-- ---------------------------------------------------------------------

/-- C3: for every document that starts with `---` whose split on `---` (with
maxsplit 2) yields fewer than 3 segments, `parse_frontmatter` fails with the
FrontmatterError naming the missing closing `---`, and the message contains
the origin string when an origin is provided. -/
theorem c3_missing_close (content : Str) (origin : Option Str)
    (h1 : isPfx (chars "---") content = true)
    (h2 : (splitDash 2 content).length < 3) :
    parse_frontmatter content origin = .error (errMissing (locOf origin)) ∧
    occursB (chars "missing closing " ++ [sqC] ++ chars "---" ++ [sqC])
      (errMissing (locOf origin)) = true ∧
    (∀ o, origin = some o → occursB o (errMissing (locOf origin)) = true) := by
  refine ⟨?_, ?_, ?_⟩
  · rw [parse_frontmatter]
    simp only [h1, if_true]
    match hsd : splitDash 2 content with
    | [] => rfl
    | [_] => rfl
    | [_, _] => rfl
    | _ :: _ :: _ :: _ =>
      rw [hsd] at h2
      simp at h2
      omega
  · rw [errMissing]
    rw [show chars "Malformed frontmatter" ++ locOf origin ++
          chars ": missing closing " ++ [sqC] ++ chars "---" ++ [sqC] =
        (chars "Malformed frontmatter" ++ locOf origin) ++
          (chars ": missing closing " ++ [sqC] ++ chars "---" ++ [sqC]) by
      simp [List.append_assoc]]
    apply occursB_append_right
    have : chars ": missing closing " ++ [sqC] ++ chars "---" ++ [sqC] =
        [':', ' '] ++ (chars "missing closing " ++ [sqC] ++ chars "---" ++ [sqC]) ++ [] := by
      simp [chars, List.append_assoc]
    rw [this]
    exact occursB_sandwich _ _ _ (by simp)
  · intro o ho
    subst ho
    rw [errMissing, locOf]
    rw [show chars "Malformed frontmatter" ++ (chars " in " ++ o) ++
          chars ": missing closing " ++ [sqC] ++ chars "---" ++ [sqC] =
        (chars "Malformed frontmatter" ++ chars " in ") ++ o ++
          (chars ": missing closing " ++ [sqC] ++ chars "---" ++ [sqC]) by
      simp [List.append_assoc]]
    exact occursB_sandwich _ _ _ (by simp [chars])

/-- Witness for C3 at a concrete unclosed document with an origin. -/
theorem c3_missing_close_witness :
    parse_frontmatter (chars "---\ntitle: My Post\n\nBody.") (some (chars "p.md")) =
      .error (errMissing (locOf (some (chars "p.md")))) ∧
    occursB (chars "p.md") (errMissing (locOf (some (chars "p.md")))) = true := by
  have h := c3_missing_close (chars "---\ntitle: My Post\n\nBody.")
    (some (chars "p.md")) (by decide) (by decide)
  exact ⟨h.1, h.2.2 (chars "p.md") rfl⟩

-- ---------------------------------------------------------------------
-- C4 / C2: behaviour of the frontmatter line loop
-- ---------------------------------------------------------------------

/-- The first offending header line: index (counting ALL lines of the split
middle segment, blank ones included) and stripped text of the first line that
is non-blank after stripping and contains no `:`. -/
def firstBad : List Str → Option (Nat × Str)
  | [] => none
  | l :: rest =>
    if pyTrim l = [] ∨ ':' ∈ pyTrim l then
      (firstBad rest).map (fun p => (p.1 + 1, p.2))
    else some (0, pyTrim l)

theorem processFmLines_err (loc : Str) :
    ∀ (lines : List Str) (n : Nat) (acc : List (Str × Str)) (i : Nat) (t : Str),
    firstBad lines = some (i, t) →
    processFmLines loc lines n acc = .error (invalidMsg loc (n + i) t) := by
  intro lines
  induction lines with
  | nil => intro n acc i t h; simp [firstBad] at h
  | cons l rest ih =>
    intro n acc i t h
    rw [firstBad] at h
    rw [processFmLines]
    by_cases hb : pyTrim l = []
    · rw [if_pos (Or.inl hb)] at h
      rcases hfb : firstBad rest with _ | p
      · rw [hfb] at h; exact Option.noConfusion h
      · rw [hfb] at h
        have hit : (p.1 + 1, p.2) = (i, t) := Option.some.inj h
        have hi : p.1 + 1 = i := congrArg Prod.fst hit
        have ht : p.2 = t := congrArg Prod.snd hit
        rw [if_pos hb]
        rw [ih (n + 1) acc p.1 p.2 hfb, ht]
        have : n + 1 + p.1 = n + i := by omega
        rw [this]
    · by_cases hc : ':' ∈ pyTrim l
      · rw [if_pos (Or.inr hc)] at h
        rcases hfb : firstBad rest with _ | p
        · rw [hfb] at h; exact Option.noConfusion h
        · rw [hfb] at h
          have hit : (p.1 + 1, p.2) = (i, t) := Option.some.inj h
          have hi : p.1 + 1 = i := congrArg Prod.fst hit
          have ht : p.2 = t := congrArg Prod.snd hit
          rw [if_neg hb, if_pos hc]
          rw [ih (n + 1) _ p.1 p.2 hfb, ht]
          have : n + 1 + p.1 = n + i := by omega
          rw [this]
      · rw [if_neg (by simp [hb, hc])] at h
        have hit : ((0 : Nat), pyTrim l) = (i, t) := Option.some.inj h
        have hi : (0 : Nat) = i := congrArg Prod.fst hit
        have ht : pyTrim l = t := congrArg Prod.snd hit
        rw [if_neg hb, if_neg hc, ht]
        have : n = n + i := by omega
        rw [← this]

theorem insertKV_prop (P : Str → Prop) (k v : Str) :
    ∀ (acc : List (Str × Str)), P v → (∀ kv ∈ acc, P kv.2) →
    ∀ kv ∈ insertKV k v acc, P kv.2 := by
  intro acc
  induction acc with
  | nil =>
    intro hv _ kv hkv
    simp [insertKV] at hkv
    rw [hkv]
    exact hv
  | cons kv0 rest ih =>
    intro hv hacc kv hkv
    rw [insertKV] at hkv
    by_cases h0 : kv0.1 = k
    · rw [if_pos h0] at hkv
      rcases List.mem_cons.mp hkv with h | h
      · rw [h]; exact hv
      · exact hacc kv (List.mem_cons_of_mem _ h)
    · rw [if_neg h0] at hkv
      rcases List.mem_cons.mp hkv with h | h
      · rw [h]; exact hacc kv0 (List.mem_cons_self kv0 rest)
      · exact ih hv (fun x hx => hacc x (List.mem_cons_of_mem _ hx)) kv h

theorem processFmLines_ok (loc : Str) (P : Str → Prop) (hP : ∀ v, P (stripVal v)) :
    ∀ (lines : List Str) (n : Nat) (acc : List (Str × Str)),
    firstBad lines = none → (∀ kv ∈ acc, P kv.2) →
    ∃ fm, processFmLines loc lines n acc = .ok fm ∧ ∀ kv ∈ fm, P kv.2 := by
  intro lines
  induction lines with
  | nil =>
    intro n acc _ hacc
    exact ⟨acc, rfl, hacc⟩
  | cons l rest ih =>
    intro n acc h hacc
    rw [firstBad] at h
    rw [processFmLines]
    by_cases hb : pyTrim l = []
    · rw [if_pos hb]
      exact ih (n + 1) acc (by
        rw [if_pos (Or.inl hb)] at h
        rcases hfb : firstBad rest with _ | p
        · rfl
        · rw [hfb] at h; exact Option.noConfusion h) hacc
    · by_cases hc : ':' ∈ pyTrim l
      · rw [if_neg hb, if_pos hc]
        exact ih (n + 1) _ (by
          rw [if_pos (Or.inr hc)] at h
          rcases hfb : firstBad rest with _ | p
          · rfl
          · rw [hfb] at h; exact Option.noConfusion h)
          (insertKV_prop P _ _ acc (hP _) hacc)
      · rw [if_neg (by simp [hb, hc])] at h
        exact Option.noConfusion h

theorem head?_dropWhile_not (p : Char → Bool) :
    ∀ (l : Str) (a : Char), (l.dropWhile p).head? = some a → p a = false := by
  intro l
  induction l with
  | nil => intro a h; simp [List.dropWhile] at h
  | cons c ls ih =>
    intro a h
    by_cases hc : p c = true
    · rw [List.dropWhile_cons, if_pos hc] at h
      exact ih a h
    · rw [List.dropWhile_cons, if_neg hc] at h
      simp at h
      rw [← h]
      exact Bool.not_eq_true _ |>.mp hc

theorem getLast?_dropWhile (p : Char → Bool) :
    ∀ (l : Str), l.dropWhile p = [] ∨ (l.dropWhile p).getLast? = l.getLast? := by
  intro l
  induction l with
  | nil => exact Or.inl rfl
  | cons c ls ih =>
    by_cases hc : p c = true
    · rw [List.dropWhile_cons, if_pos hc]
      rcases ih with h | h
      · exact Or.inl h
      · match ls, h with
        | [], _ => exact Or.inl rfl
        | x :: xs, h =>
          right
          rw [h, List.getLast?_cons_cons]
    · rw [List.dropWhile_cons, if_neg hc]
      exact Or.inr rfl

/-- After `s.strip(q)` the result never starts with `q`. -/
theorem pyStripChar_head (q : Char) (s : Str) :
    (pyStripChar q s).head? ≠ some q := by
  rw [pyStripChar, stripWhile]
  rw [List.head?_reverse]
  rcases getLast?_dropWhile (· = q) ((s.dropWhile (· = q)).reverse) with h | h
  · rw [h]; simp
  · rw [h, List.getLast?_reverse]
    rcases hh : (s.dropWhile (· = q)).head? with _ | a
    · simp
    · have := head?_dropWhile_not (· = q) s a hh
      simp at this
      simp [this]

/-- After `s.strip(q)` the result never ends with `q`. -/
theorem pyStripChar_last (q : Char) (s : Str) :
    (pyStripChar q s).getLast? ≠ some q := by
  rw [pyStripChar, stripWhile]
  rw [List.getLast?_reverse]
  rcases hh : ((s.dropWhile (· = q)).reverse.dropWhile (· = q)).head? with _ | a
  · simp
  · have := head?_dropWhile_not (· = q) _ a hh
    simp at this
    simp [this]

/-- A document whose header has a leading blank line before the bad line. -/
def c4Doc : Str := chars "---\n\nbad\n---\nbody"

/-- The error message produced for `c4Doc`. -/
def c4Msg : Str := invalidMsg (locOf (some (chars "p.md"))) 2 (chars "bad")

/-- C4, counterexample: for `c4Doc` the offending line `bad` is the 3rd line
of the original document (0-based index 2 of the line split), but the raised
FrontmatterError reports `at line 2`, not `at line 3`: the reported number is
not the line's 1-based position within the original document. -/
theorem c4_counterexample :
    parse_frontmatter c4Doc (some (chars "p.md")) = .error c4Msg ∧
    occursB (chars "at line 2") c4Msg = true ∧
    occursB (chars "at line 3") c4Msg = false ∧
    (splitNl c4Doc)[2]? = some (chars "bad") := by
  exact ⟨rfl, by decide, by decide, by decide⟩

/-- C4, amended: for a document with a well-formed header, a non-blank header
line without `:` raises FrontmatterError reporting `2 + i` where `i` is the
0-based index of the first such line within the line split of the
whitespace-STRIPPED middle segment (this equals the document's 1-based line
number only when the stripped segment's lines align with the document, e.g.
no leading blank lines in the header block); the message contains the origin
when provided; and when every line is blank or contains `:` (blank lines
skipped), parsing succeeds with no error. -/
theorem c4_amended (content : Str) (origin : Option Str) (p0 p1 p2 : Str) (ps : List Str)
    (h1 : isPfx (chars "---") content = true)
    (h2 : splitDash 2 content = p0 :: p1 :: p2 :: ps) :
    (∀ i t, firstBad (splitNl (pyTrim p1)) = some (i, t) →
      parse_frontmatter content origin = .error (invalidMsg (locOf origin) (2 + i) t) ∧
      (∀ o, origin = some o → occursB o (invalidMsg (locOf origin) (2 + i) t) = true)) ∧
    (firstBad (splitNl (pyTrim p1)) = none →
      ∃ fm, parse_frontmatter content origin = .ok (fm, pyTrim p2)) := by
  constructor
  · intro i t hfb
    constructor
    · rw [parse_frontmatter]
      simp only [h1, if_true]
      rw [h2]
      show (match processFmLines (locOf origin) (splitNl (pyTrim p1)) 2 [] with
            | Except.ok fm => Except.ok (fm, pyTrim p2)
            | Except.error e => Except.error e) =
          Except.error (invalidMsg (locOf origin) (2 + i) t)
      rw [processFmLines_err (locOf origin) _ 2 [] i t hfb]
    · intro o ho
      subst ho
      rw [invalidMsg, locOf]
      rw [show chars "Invalid frontmatter" ++ (chars " in " ++ o) ++
            chars " at line " ++ natStr (2 + i) ++ chars ": expected " ++
            [sqC] ++ chars "key: value" ++ [sqC] ++ chars ", got " ++ [sqC] ++ t ++ [sqC] =
          (chars "Invalid frontmatter" ++ chars " in ") ++ o ++
            (chars " at line " ++ natStr (2 + i) ++ chars ": expected " ++
             [sqC] ++ chars "key: value" ++ [sqC] ++ chars ", got " ++ [sqC] ++ t ++ [sqC]) by
        simp [List.append_assoc]]
      exact occursB_sandwich _ _ _ (by simp [chars])
  · intro hfb
    obtain ⟨fm, hok, _⟩ :=
      processFmLines_ok (locOf origin) (fun _ => True) (fun _ => trivial)
        (splitNl (pyTrim p1)) 2 [] hfb (by intro kv h; exact absurd h (List.not_mem_nil kv))
    refine ⟨fm, ?_⟩
    rw [parse_frontmatter]
    simp only [h1, if_true]
    rw [h2]
    show (match processFmLines (locOf origin) (splitNl (pyTrim p1)) 2 [] with
          | Except.ok fm => Except.ok (fm, pyTrim p2)
          | Except.error e => Except.error e) =
        Except.ok (fm, pyTrim p2)
    rw [hok]

/-- Witness for C4 at `c4Doc` without an origin. -/
theorem c4_amended_witness :
    parse_frontmatter c4Doc none = .error (invalidMsg (locOf none) (2 + 0) (chars "bad")) :=
  ((c4_amended c4Doc none (chars "") (chars "\n\nbad\n") (chars "\nbody") []
    (by decide) (by decide)).1 0 (chars "bad") (by decide)).1

/-- A document whose header value is a double-quoted string nested inside
single quotes (in Python source: `k: '"ab"'`). -/
def c2Doc : Str :=
  chars "---\nk: " ++ [sqC, '"'] ++ chars "ab" ++ ['"', sqC] ++ chars "\n---\nbody"

/-- The value that `parse_frontmatter` produces for `c2Doc`: `"ab"` with its
surrounding double quotes still present. -/
def c2Val : Str := chars "\"ab\""

/-- C2, counterexample: (a) for `c2Doc` the parsed value retains surrounding
MATCHING double-quote characters (the single quotes were stripped first,
exposing the double quotes, which are then kept); (b) for a value with a
double quote on only ONE end (`k: "abc`), the quote is stripped anyway — so
stripping is not conditioned on the same quote character being present on
both ends. -/
theorem c2_counterexample :
    parse_frontmatter c2Doc none = .ok ([(chars "k", c2Val)], chars "body") ∧
    c2Val.head? = some '"' ∧ c2Val.getLast? = some '"' ∧ 2 ≤ c2Val.length ∧
    parse_frontmatter (chars "---\nk: \"abc\n---\nx") none =
      .ok ([(chars "k", chars "abc")], chars "x") := by
  exact ⟨rfl, by decide, by decide, by decide, rfl⟩

/-- C2, amended: for every document with a well-formed header, the body is
the content after the second delimiter, trimmed; values are produced by
trimming the text after the first `:` and then applying Python
`strip('"')` followed by `strip("'")`, which removes ALL leading and trailing
quote characters of each kind independently of whether they match across the
two ends; consequently no metadata value starts or ends with a single quote
(the last strip applied), though a value may retain surrounding double quotes
when they were nested inside single quotes. -/
theorem c2_amended (content : Str) (origin : Option Str) (p0 p1 p2 : Str) (ps : List Str)
    (h1 : isPfx (chars "---") content = true)
    (h2 : splitDash 2 content = p0 :: p1 :: p2 :: ps)
    (h3 : firstBad (splitNl (pyTrim p1)) = none) :
    ∃ fm, parse_frontmatter content origin = .ok (fm, pyTrim p2) ∧
      ∀ kv ∈ fm, kv.2.head? ≠ some sqC ∧ kv.2.getLast? ≠ some sqC := by
  obtain ⟨fm, hok, hprop⟩ :=
    processFmLines_ok (locOf origin)
      (fun v => v.head? ≠ some sqC ∧ v.getLast? ≠ some sqC)
      (fun v => ⟨pyStripChar_head sqC _, pyStripChar_last sqC _⟩)
      (splitNl (pyTrim p1)) 2 [] h3 (by intro kv h; exact absurd h (List.not_mem_nil kv))
  refine ⟨fm, ?_, hprop⟩
  rw [parse_frontmatter]
  simp only [h1, if_true]
  rw [h2]
  show (match processFmLines (locOf origin) (splitNl (pyTrim p1)) 2 [] with
        | Except.ok fm => Except.ok (fm, pyTrim p2)
        | Except.error e => Except.error e) =
      Except.ok (fm, pyTrim p2)
  rw [hok]

/-- Witness for C2 at a concrete quoted document. -/
theorem c2_amended_witness :
    ∃ fm, parse_frontmatter (chars "---\ntitle: \"Quoted Title\"\n---\nBody.") none =
        .ok (fm, pyTrim (chars "\nBody.")) ∧
      ∀ kv ∈ fm, kv.2.head? ≠ some sqC ∧ kv.2.getLast? ≠ some sqC :=
  c2_amended (chars "---\ntitle: \"Quoted Title\"\n---\nBody.") none
    (chars "") (chars "\ntitle: \"Quoted Title\"\n") (chars "\nBody.") []
    (by decide) (by decide) (by decide)

-- ---------------------------------------------------------------------
-- C10: convert_newthought and newline-containing spans
-- ---------------------------------------------------------------------

theorem ntScan_nil : ∀ f, ntScan f [] = [] := by
  intro f
  cases f <;> rfl

/-- If `{nt}` occurs nowhere in `s`, the newthought scan is the identity. -/
theorem ntScan_no_open :
    ∀ (s : Str) (f : Nat), countOccur (chars "\x7bnt\x7d") s = 0 → ntScan f s = s := by
  intro s
  induction s with
  | nil => intro f _; exact ntScan_nil f
  | cons c rest ih =>
    intro f h
    rw [countOccur_cons] at h
    have hpfx : isPfx (chars "\x7bnt\x7d") (c :: rest) = false := by
      by_cases hp : isPfx (chars "\x7bnt\x7d") (c :: rest) = true
      · simp only [hp, if_pos] at h; simp at h
      · exact Bool.not_eq_true _ |>.mp hp
    have hrest : countOccur (chars "\x7bnt\x7d") rest = 0 := by
      simp only [hpfx] at h; simp at h; omega
    cases f with
    | zero => rfl
    | succ f =>
      rw [ntScan]
      simp only [hpfx, Bool.false_eq_true, if_false]
      rw [ih f hrest]

theorem countOccur_close_tail (close : Str) (hne : close ≠ []) (t : Str) :
    1 ≤ countOccur close (t ++ close) := by
  have h1 : 1 ≤ countOccur close (close ++ []) := countOccur_self_append close [] hne
  rw [List.append_nil] at h1
  exact le_trans h1 (countOccur_append_le close t close)

/-- If the only occurrence of `close` in `t ++ close` is the final one and `t`
contains a newline, the no-DOTALL search for `close` fails. -/
theorem findCloseNl_none_of_newline (close : Str) (hne : close ≠ []) :
    ∀ (t : Str), countOccur close (t ++ close) = 1 → '\n' ∈ t →
    findCloseNl close (t ++ close) = none := by
  intro t
  induction t with
  | nil => intro _ hnl; exact absurd hnl (List.not_mem_nil _)
  | cons c t' ih =>
    intro hcnt hnl
    rw [List.cons_append] at hcnt ⊢
    have hge := countOccur_close_tail close hne t'
    rw [countOccur_cons] at hcnt
    have hpfx : isPfx close (c :: (t' ++ close)) = false := by
      by_cases hp : isPfx close (c :: (t' ++ close)) = true
      · simp only [hp] at hcnt; simp at hcnt; omega
      · exact Bool.not_eq_true _ |>.mp hp
    have hrest : countOccur close (t' ++ close) = 1 := by
      simp only [hpfx] at hcnt; simp at hcnt; omega
    match close, hne with
    | q :: qs, _ =>
      rw [findCloseNl]
      simp only [hpfx, Bool.false_eq_true, if_false]
      by_cases hc : c = '\n'
      · simp [hc]
      · have hnl' : '\n' ∈ t' := by
          rcases List.mem_cons.mp hnl with h | h
          · exact absurd h.symm hc
          · exact h
        simp only [hc, if_false]
        rw [ih hrest hnl']

/-- If the only occurrence of `close` in `t ++ close` is the final one and `t`
has no newline, the no-DOTALL search finds exactly `t`. -/
theorem findCloseNl_exact (close : Str) (hne : close ≠ []) :
    ∀ (t : Str), countOccur close (t ++ close) = 1 → (∀ c ∈ t, c ≠ '\n') →
    findCloseNl close (t ++ close) = some (t, []) := by
  intro t
  induction t with
  | nil =>
    intro _ _
    rw [List.nil_append]
    match close, hne with
    | q :: qs, _ =>
      rw [findCloseNl]
      have : isPfx (q :: qs) ((q :: qs) ++ ([] : Str)) = true := isPfx_append_self _ _
      rw [List.append_nil] at this
      simp only [this, if_true]
      rw [List.drop_length]
  | cons c t' ih =>
    intro hcnt hnl
    rw [List.cons_append] at hcnt ⊢
    have hge := countOccur_close_tail close hne t'
    rw [countOccur_cons] at hcnt
    have hpfx : isPfx close (c :: (t' ++ close)) = false := by
      by_cases hp : isPfx close (c :: (t' ++ close)) = true
      · simp only [hp] at hcnt; simp at hcnt; omega
      · exact Bool.not_eq_true _ |>.mp hp
    have hrest : countOccur close (t' ++ close) = 1 := by
      simp only [hpfx] at hcnt; simp at hcnt; omega
    match close, hne with
    | q :: qs, _ =>
      rw [findCloseNl]
      simp only [hpfx, Bool.false_eq_true, if_false]
      have hc : ¬(c = '\n') := hnl c (List.mem_cons_self c t')
      simp only [hc, if_false]
      rw [ih hrest (fun x hx => hnl x (List.mem_cons_of_mem c hx))]

/-- Unfolding step: a newthought scan positioned at a literal `{nt}`. -/
theorem ntScan_at_open (f : Nat) (u : Str) :
    ntScan (f + 1) (chars "\x7bnt\x7d" ++ u) =
      match findCloseNl (chars "\x7b/nt\x7d") u with
      | some (content, r) => ntWrap content ++ ntScan f r
      | none => lbr :: ntScan f (chars "nt\x7d" ++ u) := rfl

theorem c10_length_aux (t : Str) :
    (chars "\x7bnt\x7d" ++ t ++ chars "\x7b/nt\x7d").length =
      ((t ++ chars "\x7b/nt\x7d").length + 3) + 1 := by
  have e1 : (chars "\x7bnt\x7d").length = 4 := rfl
  simp [List.length_append, e1]
  omega


/-- C10: a `{nt}` span whose content contains a newline is left unchanged by
`convert_newthought` (its pattern is not multi-line-capable), while a span
with single-line content is replaced by the newthought wrapper with the
content passed through verbatim.  The count hypotheses state that the open
and close markers occur exactly once, i.e. the input is a single span. -/
theorem c10_newthought (t : Str) :
    ('\n' ∈ t →
      countOccur (chars "\x7bnt\x7d")
        (chars "\x7bnt\x7d" ++ t ++ chars "\x7b/nt\x7d") = 1 →
      countOccur (chars "\x7b/nt\x7d")
        (chars "\x7bnt\x7d" ++ t ++ chars "\x7b/nt\x7d") = 1 →
      convert_newthought (chars "\x7bnt\x7d" ++ t ++ chars "\x7b/nt\x7d") =
        chars "\x7bnt\x7d" ++ t ++ chars "\x7b/nt\x7d") ∧
    ((∀ c ∈ t, c ≠ '\n') →
      countOccur (chars "\x7b/nt\x7d") (t ++ chars "\x7b/nt\x7d") = 1 →
      convert_newthought (chars "\x7bnt\x7d" ++ t ++ chars "\x7b/nt\x7d") =
        ntWrap t) := by
  constructor
  · intro hnl hO hC
    have hC' : countOccur (chars "\x7b/nt\x7d") (t ++ chars "\x7b/nt\x7d") = 1 := by
      have hle : countOccur (chars "\x7b/nt\x7d") (t ++ chars "\x7b/nt\x7d") ≤
          countOccur (chars "\x7b/nt\x7d")
            (chars "\x7bnt\x7d" ++ (t ++ chars "\x7b/nt\x7d")) :=
        countOccur_append_le _ _ _
      rw [← List.append_assoc, hC] at hle
      have hge := countOccur_close_tail (chars "\x7b/nt\x7d") (by decide) t
      omega
    rw [convert_newthought, c10_length_aux, List.append_assoc, ntScan_at_open]
    rw [findCloseNl_none_of_newline (chars "\x7b/nt\x7d") (by decide) t hC' hnl]
    have hpfx : isPfx (chars "\x7bnt\x7d")
        (lbr :: (chars "nt\x7d" ++ (t ++ chars "\x7b/nt\x7d"))) = true :=
      isPfx_append_self (chars "\x7bnt\x7d") (t ++ chars "\x7b/nt\x7d")
    have hO' : countOccur (chars "\x7bnt\x7d")
        (chars "nt\x7d" ++ (t ++ chars "\x7b/nt\x7d")) = 0 := by
      have hO2 : countOccur (chars "\x7bnt\x7d")
          (lbr :: (chars "nt\x7d" ++ (t ++ chars "\x7b/nt\x7d"))) = 1 := by
        rw [List.append_assoc] at hO
        exact hO
      rw [countOccur_cons, hpfx] at hO2
      simp at hO2
      exact hO2
    rw [ntScan_no_open _ _ hO']
    rfl
  · intro hnl hC
    rw [convert_newthought, c10_length_aux, List.append_assoc, ntScan_at_open]
    rw [findCloseNl_exact (chars "\x7b/nt\x7d") (by decide) t hC hnl]
    show ntWrap t ++ ntScan ((t ++ chars "\x7b/nt\x7d").length + 3) [] = ntWrap t
    rw [ntScan_nil, List.append_nil]

/-- Witness for C10: a span with a newline is unchanged; a single-line span is
wrapped. -/
theorem c10_newthought_witness :
    convert_newthought (chars "\x7bnt\x7d" ++ chars "a\nb" ++ chars "\x7b/nt\x7d") =
      chars "\x7bnt\x7d" ++ chars "a\nb" ++ chars "\x7b/nt\x7d" ∧
    convert_newthought (chars "\x7bnt\x7d" ++ chars "New thought" ++ chars "\x7b/nt\x7d") =
      ntWrap (chars "New thought") :=
  ⟨(c10_newthought (chars "a\nb")).1 (by decide) (by decide) (by decide),
   (c10_newthought (chars "New thought")).2 (by decide) (by decide)⟩

-- =====================================================================
-- Template renderer: render_template / render_content (build.py 624-671)
-- =====================================================================

/-- Template context values (the Python objects this renderer receives:
strings, booleans, lists, nested key/value mappings). -/
inductive Val where
  | vstr : Str → Val
  | vbool : Bool → Val
  | vlist : List Val → Val
  | vdict : List (Str × Val) → Val

/-- Python truthiness of a context value. -/
def truthy : Val → Bool
  | .vstr s => !s.isEmpty
  | .vbool b => b
  | .vlist l => !l.isEmpty
  | .vdict d => !d.isEmpty

/-- Python `isinstance(value, list)`. -/
def isVlist : Val → Bool
  | .vlist _ => true
  | _ => false

/-- Python `str(value)` for the scalar values this renderer stringifies
(strings and booleans; lists are skipped by the variable pass and the build
never passes a mapping as a scalar, so those cases are inert). -/
def strOfVal : Val → Str
  | .vstr s => s
  | .vbool true => chars "True"
  | .vbool false => chars "False"
  | .vlist _ => []
  | .vdict _ => []

/-- `str(value) if value else ""` from build.py 667. -/
def strOfScalar (v : Val) : Str := if truthy v then strOfVal v else []

/-- A template context: ordered key/value pairs (Python dict iteration is
insertion order). -/
abbrev Ctx := List (Str × Val)

/-- Python `ctx.get(key)`. -/
def lookupCtx (k : Str) : Ctx → Option Val
  | [] => none
  | (k0, v) :: rest => if k0 = k then some v else lookupCtx k rest

/-- The literal `{{key}}` token. -/
def varToken (k : Str) : Str := chars "\x7b\x7b" ++ k ++ chars "\x7d\x7d"

/-- The variable-substitution loop of `render_content` (build.py 665-667):
for each context entry in order, skip lists, else replace every occurrence of
the key's token with the string form of the value (empty if falsy). -/
def varPass (ctx : Ctx) (content : Str) : Str :=
  ctx.foldl
    (fun c kv =>
      if isVlist kv.2 then c
      else replaceAll (varToken kv.1) (strOfScalar kv.2) c)
    content

/-- Greedy `\w+` followed by a non-word character: take the maximal word run. -/
def spanWord (s : Str) : Str × Str := (s.takeWhile isWordChar, s.dropWhile isWordChar)

/-- `dropPfx pat s`: `some` of the remainder when `pat` is a prefix of `s`. -/
def dropPfx (pat s : Str) : Option Str :=
  if isPfx pat s then some (s.drop pat.length) else none

/-- Match the block pattern `\{\{#(\w+)\}\}(.*?)\{\{/\1\}\}` (re.DOTALL) at
the current position: literal `{{#`, maximal `\w+` (exact since `}` is not a
word char), literal `}}`, then the lazy body up to the first `{{/key}}`. -/
def matchBlock (s : Str) : Option (Str × Str × Str) :=
  match dropPfx (chars "\x7b\x7b#") s with
  | none => none
  | some s1 =>
    match spanWord s1 with
    | (k, s2) =>
      if k = [] then none
      else
        match dropPfx (chars "\x7d\x7d") s2 with
        | none => none
        | some s3 =>
          match findClose (chars "\x7b\x7b/" ++ (k ++ chars "\x7d\x7d")) s3 with
          | none => none
          | some (inner, rest) => some (k, inner, rest)

/-- The block pass of `render_content` (build.py 643-662): scan left to
right; at each `{{#k}}...{{/k}}` match emit the `replace_block` replacement —
for a list value, the inner template once per element (rendered with the
element as nested context when it is a mapping, emitted unchanged otherwise);
for another truthy value, the inner rendered with the outer context; for a
falsy or absent value, nothing — and continue scanning after the match
(replacements are not rescanned).  Fuel `= s.length` suffices: each step
consumes at least one input character and the recursion into `inner` works on
a strictly shorter string. -/
def blockScan : Nat → Ctx → Str → Str
  | 0, _, s => s
  | _ + 1, _, [] => []
  | f + 1, ctx, s@(c :: rest0) =>
    match matchBlock s with
    | some (k, inner, rest) =>
      (match lookupCtx k ctx with
       | some (Val.vlist items) =>
         joinAll (items.map (fun it =>
           match it with
           | Val.vdict d => varPass d (blockScan f d inner)
           | _ => inner))
       | some v => if truthy v then varPass ctx (blockScan f ctx inner) else []
       | none => []) ++ blockScan f ctx rest
    | none => c :: blockScan f ctx rest0

/-- `render_content` (build.py 642-669): block resolution, then variable
substitution. -/
def render_content (f : Nat) (ctx : Ctx) (content : Str) : Str :=
  varPass ctx (blockScan f ctx content)

/-- `render_template`'s rendering of a template string with a context
(build.py 624-671; reading the template file is a collaborator concern). -/
def renderTemplate (template : Str) (ctx : Ctx) : Str :=
  render_content template.length ctx template

-- ---------------------------------------------------------------------
-- C6: variable substitution after block resolution
-- ---------------------------------------------------------------------

theorem replA_no_occur :
    ∀ (s : Str) (f : Nat) (pat rep : Str), countOccur pat s = 0 →
    replA f pat rep s = s := by
  intro s
  induction s with
  | nil => intro f pat rep _; cases f <;> rfl
  | cons c rest ih =>
    intro f pat rep h
    rw [countOccur_cons] at h
    have hpfx : isPfx pat (c :: rest) = false := by
      by_cases hp : isPfx pat (c :: rest) = true
      · simp only [hp] at h; simp at h
      · exact Bool.not_eq_true _ |>.mp hp
    have hrest : countOccur pat rest = 0 := by
      simp only [hpfx] at h; simp at h; omega
    cases f with
    | zero => rfl
    | succ f =>
      rw [replA]
      simp only [hpfx, Bool.false_eq_true, if_false]
      rw [ih f pat rep hrest]

theorem replA_single :
    ∀ (pre pat rep post : Str) (f : Nat), pat ≠ [] →
    countOccur pat (pre ++ (pat ++ post)) = 1 →
    (pre ++ (pat ++ post)).length ≤ f →
    replA f pat rep (pre ++ (pat ++ post)) = pre ++ (rep ++ post) := by
  intro pre
  induction pre with
  | nil =>
    intro pat rep post f hne hcnt hlen
    rw [List.nil_append] at hcnt hlen ⊢
    match pat, hne with
    | q :: qs, _ =>
      match f, hlen with
      | f + 1, _ =>
        rw [List.cons_append] at hcnt ⊢
        have hpfx : isPfx (q :: qs) (q :: (qs ++ post)) = true := by
          rw [← List.cons_append]
          exact isPfx_append_self _ _
        rw [countOccur_cons, hpfx] at hcnt
        simp at hcnt
        have hpost : countOccur (q :: qs) post = 0 := by
          have := countOccur_append_le (q :: qs) qs post
          omega
        rw [replA]
        simp only [hpfx, if_true]
        rw [← List.cons_append, List.drop_left]
        rw [replA_no_occur post f (q :: qs) rep hpost]
        rfl
  | cons c pre' ih =>
    intro pat rep post f hne hcnt hlen
    rw [List.cons_append] at hcnt hlen ⊢
    have hge : 1 ≤ countOccur pat (pre' ++ (pat ++ post)) := by
      have h1 := countOccur_self_append pat post hne
      have h2 := countOccur_append_le pat pre' (pat ++ post)
      omega
    rw [countOccur_cons] at hcnt
    have hpfx : isPfx pat (c :: (pre' ++ (pat ++ post))) = false := by
      by_cases hp : isPfx pat (c :: (pre' ++ (pat ++ post))) = true
      · simp only [hp] at hcnt; simp at hcnt; omega
      · exact Bool.not_eq_true _ |>.mp hp
    have hrest : countOccur pat (pre' ++ (pat ++ post)) = 1 := by
      simp only [hpfx] at hcnt; simp at hcnt; omega
    match f, hlen with
    | f + 1, hlen2 =>
      rw [replA]
      simp only [hpfx, Bool.false_eq_true, if_false]
      rw [ih pat rep post f hne hrest (by simp [List.length_append] at hlen2 ⊢; omega)]
      rfl

theorem varToken_ne_nil (k : Str) : varToken k ≠ [] := fun h => List.noConfusion h

theorem varPass_cons (kv : Str × Val) (rest : Ctx) (c : Str) :
    varPass (kv :: rest) c =
      varPass rest
        (if isVlist kv.2 then c
         else replaceAll (varToken kv.1) (strOfScalar kv.2) c) := rfl

/-- If no present non-list key's token occurs in the content, the variable
pass leaves the content unchanged (so `{{missing}}` tokens survive as literal
text). -/
theorem varPass_no_tokens :
    ∀ (ctx : Ctx) (c : Str),
    (∀ kv ∈ ctx, isVlist kv.2 = false → countOccur (varToken kv.1) c = 0) →
    varPass ctx c = c := by
  intro ctx
  induction ctx with
  | nil => intro c _; rfl
  | cons kv rest ih =>
    intro c h
    rw [varPass_cons]
    by_cases hv : isVlist kv.2 = true
    · simp only [hv, if_true]
      exact ih c (fun x hx => h x (List.mem_cons_of_mem _ hx))
    · have hv' : isVlist kv.2 = false := Bool.not_eq_true _ |>.mp hv
      simp only [hv', Bool.false_eq_true, if_false]
      rw [replaceAll, replA_no_occur c c.length (varToken kv.1) (strOfScalar kv.2)
        (h kv (List.mem_cons_self kv rest) hv')]
      exact ih c (fun x hx => h x (List.mem_cons_of_mem _ hx))

/-- A present non-list key's token is replaced by the string form of its
value (empty when falsy). -/
theorem varPass_single (k : Str) (v : Val) (pre post : Str)
    (hv : isVlist v = false)
    (hcnt : countOccur (varToken k) (pre ++ (varToken k ++ post)) = 1) :
    varPass [(k, v)] (pre ++ (varToken k ++ post)) = pre ++ (strOfScalar v ++ post) := by
  rw [varPass_cons]
  simp only [hv, Bool.false_eq_true, if_false]
  show varPass [] _ = _
  rw [varPass]
  simp only [List.foldl_nil]
  rw [replaceAll]
  exact replA_single pre (varToken k) (strOfScalar v) post _
    (varToken_ne_nil k) hcnt (le_refl _)

/-- C6: after block resolution, the variable pass replaces each `{{key}}`
token whose key is present with a non-list value by the string form of that
value (empty when falsy), and leaves tokens of absent keys as literal text.
Concrete round-trips from the spec, plus the general facts about the pass:
content without any present non-list key's token is unchanged, and a present
key's unique token is replaced by the value's string form. -/
theorem c6_variable_substitution :
    renderTemplate (chars "<h1>\x7b\x7btitle\x7d\x7d</h1>")
      [(chars "title", Val.vstr (chars "Hello World"))] =
      chars "<h1>Hello World</h1>" ∧
    renderTemplate (chars "<h1>\x7b\x7btitle\x7d\x7d</h1><p>\x7b\x7bmissing\x7d\x7d</p>")
      [(chars "title", Val.vstr (chars "Title"))] =
      chars "<h1>Title</h1><p>\x7b\x7bmissing\x7d\x7d</p>" ∧
    (∀ (ctx : Ctx) (c : Str),
      (∀ kv ∈ ctx, isVlist kv.2 = false → countOccur (varToken kv.1) c = 0) →
      varPass ctx c = c) ∧
    (∀ (k : Str) (v : Val) (pre post : Str), isVlist v = false →
      countOccur (varToken k) (pre ++ (varToken k ++ post)) = 1 →
      varPass [(k, v)] (pre ++ (varToken k ++ post)) =
        pre ++ (strOfScalar v ++ post)) :=
  ⟨by decide, by decide, varPass_no_tokens,
   fun k v pre post hv hcnt => varPass_single k v pre post hv hcnt⟩

/-- Witness for C6's quantified parts at concrete inputs. -/
theorem c6_variable_substitution_witness :
    varPass [(chars "missing", Val.vlist [])] (chars "<p>\x7b\x7bother\x7d\x7d</p>") =
      chars "<p>\x7b\x7bother\x7d\x7d</p>" ∧
    varPass [(chars "title", Val.vstr (chars "Hi"))]
      (chars "<h1>" ++ (varToken (chars "title") ++ chars "</h1>")) =
      chars "<h1>" ++ (strOfScalar (Val.vstr (chars "Hi")) ++ chars "</h1>") :=
  ⟨c6_variable_substitution.2.2.1 [(chars "missing", Val.vlist [])]
    (chars "<p>\x7b\x7bother\x7d\x7d</p>") (by decide),
   c6_variable_substitution.2.2.2 (chars "title") (Val.vstr (chars "Hi"))
    (chars "<h1>") (chars "</h1>") (by decide) (by decide)⟩

-- ---------------------------------------------------------------------
-- C7: block (loop) rendering
-- ---------------------------------------------------------------------

/-- The literal `{{/key}}` close tag. -/
def blockClose (k : Str) : Str := chars "\x7b\x7b/" ++ (k ++ chars "\x7d\x7d")

theorem blockClose_ne_nil (k : Str) : blockClose k ≠ [] := fun h => List.noConfusion h

theorem spanWord_word_append :
    ∀ (k u : Str), (∀ c ∈ k, isWordChar c = true) →
    (k ++ (rbr :: u)).takeWhile isWordChar = k ∧
    (k ++ (rbr :: u)).dropWhile isWordChar = rbr :: u := by
  intro k
  induction k with
  | nil =>
    intro u _
    rw [List.nil_append]
    constructor
    · rw [List.takeWhile_cons]
      simp [show isWordChar rbr = false from by decide]
    · rw [List.dropWhile_cons]
      simp [show isWordChar rbr = false from by decide]
  | cons c k' ih =>
    intro u hw
    have hc : isWordChar c = true := hw c (List.mem_cons_self c k')
    have ih' := ih u (fun x hx => hw x (List.mem_cons_of_mem c hx))
    rw [List.cons_append]
    constructor
    · rw [List.takeWhile_cons]
      simp only [hc, if_true]
      rw [ih'.1]
    · rw [List.dropWhile_cons]
      simp only [hc, if_true]
      exact ih'.2

/-- If the only occurrence of `close` in `t ++ close ++ post` is the middle
one, the DOTALL lazy search finds exactly `(t, post)`. -/
theorem findClose_exact (close : Str) (hne : close ≠ []) :
    ∀ (t post : Str), countOccur close (t ++ (close ++ post)) = 1 →
    findClose close (t ++ (close ++ post)) = some (t, post) := by
  intro t
  induction t with
  | nil =>
    intro post _
    rw [List.nil_append]
    match close, hne with
    | q :: qs, _ =>
      rw [List.cons_append, findClose]
      have hpfx : isPfx (q :: qs) (q :: (qs ++ post)) = true := by
        rw [← List.cons_append]
        exact isPfx_append_self _ _
      simp only [hpfx, if_true]
      rw [← List.cons_append, List.drop_left]
  | cons c t' ih =>
    intro post hcnt
    rw [List.cons_append] at hcnt ⊢
    have hge : 1 ≤ countOccur close (t' ++ (close ++ post)) := by
      have h1 := countOccur_self_append close post hne
      have h2 := countOccur_append_le close t' (close ++ post)
      omega
    rw [countOccur_cons] at hcnt
    have hpfx : isPfx close (c :: (t' ++ (close ++ post))) = false := by
      by_cases hp : isPfx close (c :: (t' ++ (close ++ post))) = true
      · simp only [hp] at hcnt; simp at hcnt; omega
      · exact Bool.not_eq_true _ |>.mp hp
    have hrest : countOccur close (t' ++ (close ++ post)) = 1 := by
      simp only [hpfx] at hcnt; simp at hcnt; omega
    match close, hne with
    | q :: qs, _ =>
      rw [findClose]
      simp only [hpfx, Bool.false_eq_true, if_false]
      rw [ih post hrest]

/-- The block pattern matches a well-formed `{{#k}}inner{{/k}}post` at the
current position, provided the close tag's only occurrence is the real one. -/
theorem matchBlock_at (k inner post : Str) (hk : k ≠ [])
    (hw : ∀ c ∈ k, isWordChar c = true)
    (hcnt : countOccur (blockClose k) (inner ++ (blockClose k ++ post)) = 1) :
    matchBlock (chars "\x7b\x7b#" ++
        (k ++ (chars "\x7d\x7d" ++ (inner ++ (blockClose k ++ post))))) =
      some (k, inner, post) := by
  have hd1 : dropPfx (chars "\x7b\x7b#")
      (chars "\x7b\x7b#" ++ (k ++ (chars "\x7d\x7d" ++ (inner ++ (blockClose k ++ post))))) =
      some (k ++ (chars "\x7d\x7d" ++ (inner ++ (blockClose k ++ post)))) := by
    rw [dropPfx, isPfx_append_self, if_pos rfl, List.drop_left]
  rw [matchBlock, hd1]
  show (match spanWord (k ++ (chars "\x7d\x7d" ++ (inner ++ (blockClose k ++ post)))) with
        | (k2, s2) =>
          if k2 = [] then none
          else
            match dropPfx (chars "\x7d\x7d") s2 with
            | none => none
            | some s3 =>
              match findClose (chars "\x7b\x7b/" ++ (k2 ++ chars "\x7d\x7d")) s3 with
              | none => none
              | some (inner2, rest) => some (k2, inner2, rest)) =
      some (k, inner, post)
  have hspan := spanWord_word_append k
    (rbr :: (inner ++ (blockClose k ++ post))) hw
  have ht : (k ++ (chars "\x7d\x7d" ++ (inner ++ (blockClose k ++ post)))).takeWhile
      isWordChar = k := hspan.1
  have hdw : (k ++ (chars "\x7d\x7d" ++ (inner ++ (blockClose k ++ post)))).dropWhile
      isWordChar = chars "\x7d\x7d" ++ (inner ++ (blockClose k ++ post)) := hspan.2
  rw [spanWord, ht, hdw]
  show (if k = [] then none
        else
          match dropPfx (chars "\x7d\x7d")
              (chars "\x7d\x7d" ++ (inner ++ (blockClose k ++ post))) with
          | none => none
          | some s3 =>
            match findClose (chars "\x7b\x7b/" ++ (k ++ chars "\x7d\x7d")) s3 with
            | none => none
            | some (inner2, rest) => some (k, inner2, rest)) =
      some (k, inner, post)
  have hd2 : dropPfx (chars "\x7d\x7d")
      (chars "\x7d\x7d" ++ (inner ++ (blockClose k ++ post))) =
      some (inner ++ (blockClose k ++ post)) := by
    rw [dropPfx, isPfx_append_self, if_pos rfl, List.drop_left]
  rw [if_neg hk, hd2]
  show (match findClose (blockClose k) (inner ++ (blockClose k ++ post)) with
        | none => none
        | some (inner2, rest) => some (k, inner2, rest)) = some (k, inner, post)
  rw [findClose_exact (blockClose k) (blockClose_ne_nil k) inner post hcnt]

/-- One scan step of the block pass at a well-formed `{{#k}}inner{{/k}}post`
whose key maps to a sequence: the renderer emits the inner template once per
element in order — rendered with the element as nested context when the
element is a mapping, emitted unchanged when it is not — and continues
scanning after the block; an empty sequence contributes nothing. -/
theorem blockScan_at (f : Nat) (ctx : Ctx) (k inner post : Str) (items : List Val)
    (hk : k ≠ []) (hw : ∀ c ∈ k, isWordChar c = true)
    (hcnt : countOccur (blockClose k) (inner ++ (blockClose k ++ post)) = 1)
    (hlook : lookupCtx k ctx = some (Val.vlist items)) :
    blockScan (f + 1) ctx
      (chars "\x7b\x7b#" ++ (k ++ (chars "\x7d\x7d" ++ (inner ++ (blockClose k ++ post))))) =
      joinAll (items.map (fun it =>
        match it with
        | Val.vdict d => render_content f d inner
        | _ => inner)) ++ blockScan f ctx post := by
  have hstep : blockScan (f + 1) ctx
      (chars "\x7b\x7b#" ++ (k ++ (chars "\x7d\x7d" ++ (inner ++ (blockClose k ++ post))))) =
      match matchBlock (chars "\x7b\x7b#" ++
          (k ++ (chars "\x7d\x7d" ++ (inner ++ (blockClose k ++ post))))) with
      | some (k2, inner2, rest) =>
        (match lookupCtx k2 ctx with
         | some (Val.vlist items2) =>
           joinAll (items2.map (fun it =>
             match it with
             | Val.vdict d => varPass d (blockScan f d inner2)
             | _ => inner2))
         | some v => if truthy v then varPass ctx (blockScan f ctx inner2) else []
         | none => []) ++ blockScan f ctx rest
      | none =>
        lbr :: blockScan f ctx
          (chars "\x7b#" ++ (k ++ (chars "\x7d\x7d" ++ (inner ++ (blockClose k ++ post))))) :=
    rfl
  rw [hstep, matchBlock_at k inner post hk hw hcnt]
  show (match lookupCtx k ctx with
        | some (Val.vlist items2) =>
          joinAll (items2.map (fun it =>
            match it with
            | Val.vdict d => varPass d (blockScan f d inner)
            | _ => inner))
        | some v => if truthy v then varPass ctx (blockScan f ctx inner) else []
        | none => []) ++ blockScan f ctx post = _
  rw [hlook]
  rfl

/-- C7: loop rendering.  The two concrete spec round-trips, plus the general
block-pass step `blockScan_at` restated: for a block whose key maps to a
sequence, the inner template is emitted once per element in order, rendered
with the element as nested context when it is a mapping and unchanged
otherwise; an empty sequence renders the block to nothing. -/
theorem c7_loop_rendering :
    renderTemplate
      (chars "<ul>\x7b\x7b#items\x7d\x7d<li>\x7b\x7bname\x7d\x7d</li>\x7b\x7b/items\x7d\x7d</ul>")
      [(chars "items", Val.vlist
        [Val.vdict [(chars "name", Val.vstr (chars "One"))],
         Val.vdict [(chars "name", Val.vstr (chars "Two"))]])] =
      chars "<ul><li>One</li><li>Two</li></ul>" ∧
    renderTemplate
      (chars "<ul>\x7b\x7b#items\x7d\x7d<li>\x7b\x7bname\x7d\x7d</li>\x7b\x7b/items\x7d\x7d</ul>")
      [(chars "items", Val.vlist [])] = chars "<ul></ul>" ∧
    (∀ (f : Nat) (ctx : Ctx) (k inner post : Str) (items : List Val),
      k ≠ [] → (∀ c ∈ k, isWordChar c = true) →
      countOccur (blockClose k) (inner ++ (blockClose k ++ post)) = 1 →
      lookupCtx k ctx = some (Val.vlist items) →
      blockScan (f + 1) ctx
        (chars "\x7b\x7b#" ++ (k ++ (chars "\x7d\x7d" ++ (inner ++ (blockClose k ++ post))))) =
        joinAll (items.map (fun it =>
          match it with
          | Val.vdict d => render_content f d inner
          | _ => inner)) ++ blockScan f ctx post) :=
  ⟨by decide, by decide,
   fun f ctx k inner post items hk hw hcnt hlook =>
     blockScan_at f ctx k inner post items hk hw hcnt hlook⟩

/-- Witness for C7's quantified part: a one-item block over a non-mapping
item next to a mapping item. -/
theorem c7_loop_rendering_witness :
    blockScan 20 [(chars "xs", Val.vlist [Val.vstr (chars "s"), Val.vdict []])]
      (chars "\x7b\x7b#" ++ (chars "xs" ++ (chars "\x7d\x7d" ++
        (chars "<li>a</li>" ++ (blockClose (chars "xs") ++ chars "tail"))))) =
      joinAll ([Val.vstr (chars "s"), Val.vdict []].map (fun it =>
        match it with
        | Val.vdict d => render_content 19 d (chars "<li>a</li>")
        | _ => chars "<li>a</li>")) ++
        blockScan 19 [(chars "xs", Val.vlist [Val.vstr (chars "s"), Val.vdict []])]
          (chars "tail") :=
  c7_loop_rendering.2.2 19 [(chars "xs", Val.vlist [Val.vstr (chars "s"), Val.vdict []])]
    (chars "xs") (chars "<li>a</li>") (chars "tail")
    [Val.vstr (chars "s"), Val.vdict []]
    (by decide) (by decide) (by decide) (by rfl)

-- =====================================================================
-- Heading extraction and id injection:
-- extract_headings (build.py 489-519), add_heading_ids (build.py 522-553)
-- =====================================================================

/-- Parse the optional regex group `\s+id="([^"]*)"`: one-or-more whitespace
(maximal, exact since `i` is not whitespace), the literal `id="`, then the
greedy `[^"]*` up to the closing quote (exact: it cannot cross a quote).
Returns (consumed text, id value, rest). -/
def parseIdGrp (s : Str) : Option (Str × Str × Str) :=
  match (s.takeWhile isPySpace, s.dropWhile isPySpace) with
  | (ws, r1) =>
    if ws = [] then none
    else
      match dropPfx (chars "id=\"") r1 with
      | none => none
      | some r2 =>
        match findClose (chars "\"") r2 with
        | none => none
        | some (idv, r3) =>
          some (ws ++ (chars "id=\"" ++ (idv ++ chars "\"")), idv, r3)

/-- Parse `(\s[^>]*)?>`: the optional attrs group requires a whitespace first
character and runs greedily (exactly) up to the `>`; the two alternatives are
disjoint on the first character.  Returns (consumed text including `>`,
attrs group, rest). -/
def parseAttrsGt : Str → Option (Str × Option Str × Str)
  | [] => none
  | c :: r =>
    if c = '>' then some ([c], none, r)
    else if isPySpace c then
      match findClose (chars ">") (c :: r) with
      | none => none
      | some (att, r2) => some (att ++ chars ">", some att, r2)
    else none

/-- Parse the lazy `(.+?)` followed by the literal `close`: at least one
character (any, re.DOTALL), then the first occurrence of `close`. -/
def parseBody1 (close : Str) : Str → Option (Str × Str)
  | [] => none
  | c :: r =>
    match findClose close r with
    | none => none
    | some (b, rest) => some (c :: b, rest)

/-- A match of the injection pattern: level digit, optional existing id,
optional trailing-attrs group, body, and the whole matched text. -/
structure HMatch where
  lvl : Char
  idv : Option Str
  attrs : Option Str
  body : Str
  whole : Str

/-- The no-id-group path of the injection pattern (also the backtracking
fallback when the id group matched but the remainder failed). -/
def matchHeadingAddB (d : Char) (r : Str) : Option (HMatch × Str) :=
  match parseAttrsGt r with
  | none => none
  | some (con2, att, r2) =>
    match parseBody1 (chars "</h" ++ ([d] ++ chars ">")) r2 with
    | none => none
    | some (b, rest) =>
      some ({ lvl := d, idv := none, attrs := att, body := b,
              whole := '<' :: 'h' :: d ::
                (con2 ++ (b ++ (chars "</h" ++ ([d] ++ chars ">")))) }, rest)

/-- Match `<h([23])(?:\s+id="([^"]*)")?(\s[^>]*)?>(.+?)</h\1>` (re.DOTALL) at
the current position, with the regex's backtracking order: the greedy
optional id group is tried first; if the remainder then fails, the engine
drops the id group and retries from the same position (`matchHeadingAddB`). -/
def matchHeadingAdd (s : Str) : Option (HMatch × Str) :=
  match s with
  | c0 :: c1 :: d :: r =>
    if c0 = '<' ∧ c1 = 'h' ∧ (d = '2' ∨ d = '3') then
      match parseIdGrp r with
      | none => matchHeadingAddB d r
      | some (con1, idv, r1) =>
        match parseAttrsGt r1 with
        | none => matchHeadingAddB d r
        | some (con2, att, r2) =>
          match parseBody1 (chars "</h" ++ ([d] ++ chars ">")) r2 with
          | none => matchHeadingAddB d r
          | some (b, rest) =>
            some ({ lvl := d, idv := some idv, attrs := att, body := b,
                    whole := '<' :: 'h' :: d ::
                      (con1 ++ (con2 ++ (b ++ (chars "</h" ++ ([d] ++ chars ">"))))) }, rest)
    else none
  | _ => none

/-- Python truthiness of the optional id group: `if existing_id:` is false
both when the group did not participate (None) and when it matched the empty
string. -/
def pyTruthyStr : Option Str → Bool
  | some s => !s.isEmpty
  | none => false

/-- The replacement `f'<h{tag} id="{heading["id"]}"{attrs}>{content}</h{tag}>'`
emitted by `add_id` for a heading whose `existing_id` is falsy. -/
def addIdRepl (m : HMatch) (hid : Str) : Str :=
  chars "<h" ++ [m.lvl] ++ chars " id=\"" ++ hid ++ chars "\"" ++
  m.attrs.getD [] ++ chars ">" ++ m.body ++ (chars "</h" ++ ([m.lvl] ++ chars ">"))

/-- The scan of `add_heading_ids` (build.py 522-553): positional pairing of
each match with the heading list by a running index; matches beyond the list
or with a truthy existing id (`if existing_id:` — a non-empty matched group)
are returned unchanged (`match.group(0)`); the index is not advanced in the
out-of-bounds case (the code returns before the increment) but is advanced
in the existing-id case. -/
def addScan : Nat → List Heading → Nat → Str → Str
  | 0, _, _, s => s
  | _ + 1, _, _, [] => []
  | f + 1, hs, i, s@(c :: rest0) =>
    match matchHeadingAdd s with
    | some (m, rest) =>
      if hs.length ≤ i then m.whole ++ addScan f hs i rest
      else
        if pyTruthyStr m.idv then m.whole ++ addScan f hs (i + 1) rest
        else addIdRepl m ((hs.getD i ⟨2, [], []⟩).id) ++ addScan f hs (i + 1) rest
    | none => c :: addScan f hs i rest0

/-- `add_heading_ids` (build.py 522-553). -/
def add_heading_ids (html : Str) (hs : List Heading) : Str :=
  addScan html.length hs 0 html

/-- Every match of the injection pattern in the input carries a truthy
(non-empty) id — `id="..."` directly after the tag name, the position and
form of injected ids; an empty `id=""` does not count, matching the
program's `if existing_id:` truthiness. -/
def allIdScan : Nat → Str → Bool
  | 0, _ => true
  | _ + 1, [] => true
  | f + 1, s@(_ :: rest0) =>
    match matchHeadingAdd s with
    | some (m, rest) => pyTruthyStr m.idv && allIdScan f rest
    | none => allIdScan f rest0

/-- All h2/h3 headings of `html` already carry an injected (non-empty) id
attribute. -/
def allInjected (html : Str) : Bool := allIdScan html.length html

/-- `re.sub(r"<[^>]+>", "", text)`: remove tag-like spans (a `<`, one or more
non-`>` characters, then `>`). -/
def stripTagsScan : Nat → Str → Str
  | 0, s => s
  | _ + 1, [] => []
  | f + 1, c :: rest0 =>
    if c = '<' then
      match findClose (chars ">") rest0 with
      | some (content, r) =>
        if content = [] then c :: stripTagsScan f rest0
        else stripTagsScan f r
      | none => c :: stripTagsScan f rest0
    else c :: stripTagsScan f rest0

def stripTags (s : Str) : Str := stripTagsScan s.length s

/-- `re.sub(r"[^\w\s-]", "", clean_text.lower())`. -/
def slugClean (s : Str) : Str :=
  (s.map Char.toLower).filter (fun c => isWordChar c || isPySpace c || c = '-')

/-- `re.sub(r"[\s]+", "-", ...)`: collapse each whitespace run to one `-`. -/
def collapseWS : Nat → Str → Str
  | 0, s => s
  | _ + 1, [] => []
  | f + 1, c :: rest =>
    if isPySpace c then '-' :: collapseWS f (rest.dropWhile isPySpace)
    else c :: collapseWS f rest

/-- The generated slug for a heading without an existing id. -/
def slugOf (cleanText : Str) : Str :=
  collapseWS (slugClean cleanText).length (slugClean cleanText)

/-- The no-id-group path of the extraction pattern
`<h([23])(?:\s+id="([^"]*)")?[^>]*>(.*?)</h\1>`. -/
def matchHeadingExtractB (d : Char) (r : Str) : Option ((Char × Option Str × Str) × Str) :=
  match findClose (chars ">") r with
  | none => none
  | some (_, r2) =>
    match findClose (chars "</h" ++ ([d] ++ chars ">")) r2 with
    | none => none
    | some (b, rest) => some ((d, none, b), rest)

/-- Match the extraction pattern at the current position (same backtracking
structure as the injection pattern; the body `(.*?)` may be empty and there
is no mandatory whitespace before the trailing `[^>]*`). -/
def matchHeadingExtract (s : Str) : Option ((Char × Option Str × Str) × Str) :=
  match s with
  | c0 :: c1 :: d :: r =>
    if c0 = '<' ∧ c1 = 'h' ∧ (d = '2' ∨ d = '3') then
      match parseIdGrp r with
      | none => matchHeadingExtractB d r
      | some (_, idv, r1) =>
        match findClose (chars ">") r1 with
        | none => matchHeadingExtractB d r
        | some (_, r2) =>
          match findClose (chars "</h" ++ ([d] ++ chars ">")) r2 with
          | none => matchHeadingExtractB d r
          | some (b, rest) => some ((d, some idv, b), rest)
    else none
  | _ => none

/-- The scan of `extract_headings` (build.py 489-519). -/
def extractScan : Nat → Str → List Heading
  | 0, _ => []
  | _ + 1, [] => []
  | f + 1, s@(_ :: rest0) =>
    match matchHeadingExtract s with
    | some ((d, idv, body), rest) =>
      { level := if d = '2' then 2 else 3,
        id := if pyTruthyStr idv then idv.getD []
              else slugOf (pyTrim (stripTags body)),
        text := pyTrim (stripTags body) } :: extractScan f rest
    | none => extractScan f rest0

/-- `extract_headings` (build.py 489-519). -/
def extract_headings (html : Str) : List Heading := extractScan html.length html

-- ---------------------------------------------------------------------
-- C5: the injection matcher reconstructs its input
-- ---------------------------------------------------------------------

theorem isPfx_sound : ∀ (pat s : Str), isPfx pat s = true →
    pat ++ s.drop pat.length = s := by
  intro pat
  induction pat with
  | nil => intro s _; rfl
  | cons p ps ih =>
    intro s h
    match s, h with
    | c :: cs, h =>
      rw [isPfx] at h
      rcases Bool.and_eq_true _ _ |>.mp h with ⟨h1, h2⟩
      have hpc : p = c := by simpa using h1
      subst hpc
      rw [List.cons_append, List.length_cons, List.drop_succ_cons]
      rw [ih cs h2]

theorem findClose_sound (close : Str) :
    ∀ (s b r : Str), findClose close s = some (b, r) → b ++ (close ++ r) = s := by
  intro s
  induction s with
  | nil => intro b r h; simp [findClose] at h
  | cons c rest ih =>
    intro b r h
    rw [findClose] at h
    by_cases hp : isPfx close (c :: rest) = true
    · simp only [hp, if_true] at h
      have hb : ([] : Str) = b := congrArg Prod.fst (Option.some.inj h)
      have hr : (c :: rest).drop close.length = r := congrArg Prod.snd (Option.some.inj h)
      rw [← hb, ← hr, List.nil_append]
      exact isPfx_sound close (c :: rest) hp
    · have hp' : isPfx close (c :: rest) = false := Bool.not_eq_true _ |>.mp hp
      simp only [hp', Bool.false_eq_true, if_false] at h
      rcases hfc : findClose close rest with _ | p
      · rw [hfc] at h; exact Option.noConfusion h
      · rw [hfc] at h
        have hb : c :: p.1 = b := congrArg Prod.fst (Option.some.inj h)
        have hr : p.2 = r := congrArg Prod.snd (Option.some.inj h)
        rw [← hb, ← hr, List.cons_append]
        rw [ih p.1 p.2 (by rw [hfc])]

theorem dropPfx_sound (pat s r : Str) (h : dropPfx pat s = some r) : pat ++ r = s := by
  rw [dropPfx] at h
  by_cases hp : isPfx pat s = true
  · simp only [hp, if_true] at h
    rw [← Option.some.inj h]
    exact isPfx_sound pat s hp
  · simp only [hp, if_false] at h
    exact Option.noConfusion h

theorem parseIdGrp_sound (s con idv r3 : Str)
    (h : parseIdGrp s = some (con, idv, r3)) : con ++ r3 = s := by
  rw [parseIdGrp] at h
  by_cases hws : s.takeWhile isPySpace = []
  · simp only [hws, if_pos rfl] at h
    exact Option.noConfusion h
  · simp only [if_neg hws] at h
    rcases hd : dropPfx (chars "id=\"") (s.dropWhile isPySpace) with _ | r2
    · rw [hd] at h; exact Option.noConfusion h
    · rw [hd] at h
      have h2 : (match findClose (chars "\"") r2 with
          | none => none
          | some (idv2, r4) =>
            some (s.takeWhile isPySpace ++ (chars "id=\"" ++ (idv2 ++ chars "\"")), idv2, r4)) =
          some (con, idv, r3) := h
      rcases hf : findClose (chars "\"") r2 with _ | p
      · rw [hf] at h2; exact Option.noConfusion h2
      · rw [hf] at h2
        have hcon : s.takeWhile isPySpace ++ (chars "id=\"" ++ (p.1 ++ chars "\"")) = con :=
          congrArg (fun x : Str × Str × Str => x.1) (Option.some.inj h2)
        have hr : p.2 = r3 :=
          congrArg (fun x : Str × Str × Str => x.2.2) (Option.some.inj h2)
        rw [← hcon, ← hr]
        have h1 := findClose_sound (chars "\"") r2 p.1 p.2 hf
        have h2 := dropPfx_sound (chars "id=\"") (s.dropWhile isPySpace) r2 hd
        calc (s.takeWhile isPySpace ++ (chars "id=\"" ++ (p.1 ++ chars "\""))) ++ p.2
            = s.takeWhile isPySpace ++ (chars "id=\"" ++ (p.1 ++ (chars "\"" ++ p.2))) := by
              simp [List.append_assoc]
          _ = s.takeWhile isPySpace ++ (chars "id=\"" ++ r2) := by rw [h1]
          _ = s.takeWhile isPySpace ++ s.dropWhile isPySpace := by rw [h2]
          _ = s := List.takeWhile_append_dropWhile isPySpace s

theorem parseAttrsGt_sound :
    ∀ (s con : Str) (att : Option Str) (r2 : Str),
    parseAttrsGt s = some (con, att, r2) → con ++ r2 = s := by
  intro s con att r2 h
  match s, h with
  | c :: r, h =>
    rw [parseAttrsGt] at h
    by_cases hgt : c = '>'
    · simp only [hgt, if_pos rfl] at h
      have hcon : ['>'] = con := congrArg (fun x : Str × Option Str × Str => x.1)
        (Option.some.inj h)
      have hr : r = r2 := congrArg (fun x : Str × Option Str × Str => x.2.2)
        (Option.some.inj h)
      rw [← hcon, ← hr, hgt]
      rfl
    · simp only [if_neg hgt] at h
      by_cases hsp : isPySpace c = true
      · simp only [hsp, if_true] at h
        rcases hf : findClose (chars ">") (c :: r) with _ | p
        · rw [hf] at h; exact Option.noConfusion h
        · rw [hf] at h
          have hcon : p.1 ++ chars ">" = con :=
            congrArg (fun x : Str × Option Str × Str => x.1) (Option.some.inj h)
          have hr : p.2 = r2 :=
            congrArg (fun x : Str × Option Str × Str => x.2.2) (Option.some.inj h)
          rw [← hcon, ← hr]
          have h1 := findClose_sound (chars ">") (c :: r) p.1 p.2 hf
          rw [List.append_assoc]
          exact h1
      · have hsp' : isPySpace c = false := Bool.not_eq_true _ |>.mp hsp
        simp only [hsp', Bool.false_eq_true, if_false] at h
        exact Option.noConfusion h

theorem parseBody1_sound (close : Str) :
    ∀ (s b rest : Str), parseBody1 close s = some (b, rest) →
    b ++ (close ++ rest) = s := by
  intro s b rest h
  match s, h with
  | c :: r, h =>
    rw [parseBody1] at h
    rcases hf : findClose close r with _ | p
    · rw [hf] at h; exact Option.noConfusion h
    · rw [hf] at h
      have hb : c :: p.1 = b := congrArg Prod.fst (Option.some.inj h)
      have hr : p.2 = rest := congrArg Prod.snd (Option.some.inj h)
      rw [← hb, ← hr, List.cons_append]
      rw [findClose_sound close r p.1 p.2 hf]

theorem matchHeadingAddB_sound (d : Char) (r : Str) (m : HMatch) (rest : Str)
    (h : matchHeadingAddB d r = some (m, rest)) :
    m.whole ++ rest = '<' :: 'h' :: d :: r := by
  rw [matchHeadingAddB] at h
  rcases hA : parseAttrsGt r with _ | ⟨con2, att, r2⟩
  · rw [hA] at h; exact Option.noConfusion h
  · rw [hA] at h
    have h2 : (match parseBody1 (chars "</h" ++ ([d] ++ chars ">")) r2 with
        | none => none
        | some (b, rest2) =>
          some ({ lvl := d, idv := none, attrs := att, body := b,
                  whole := '<' :: 'h' :: d ::
                    (con2 ++ (b ++ (chars "</h" ++ ([d] ++ chars ">")))) }, rest2)) =
        some (m, rest) := h
    rcases hB : parseBody1 (chars "</h" ++ ([d] ++ chars ">")) r2 with _ | ⟨b, rest2⟩
    · rw [hB] at h2; exact Option.noConfusion h2
    · rw [hB] at h2
      have hm : ({ lvl := d, idv := none, attrs := att, body := b,
                   whole := '<' :: 'h' :: d ::
                     (con2 ++ (b ++ (chars "</h" ++ ([d] ++ chars ">")))) } : HMatch) = m :=
        congrArg Prod.fst (Option.some.inj h2)
      have hrest : rest2 = rest := congrArg Prod.snd (Option.some.inj h2)
      subst hrest
      rw [← hm]
      show ('<' :: 'h' :: d :: (con2 ++ (b ++ (chars "</h" ++ ([d] ++ chars ">"))))) ++ rest2 =
        '<' :: 'h' :: d :: r
      have e1 := parseAttrsGt_sound r con2 att r2 hA
      have e2 := parseBody1_sound (chars "</h" ++ ([d] ++ chars ">")) r2 b rest2 hB
      rw [List.cons_append, List.cons_append, List.cons_append]
      rw [List.append_assoc, List.append_assoc]
      rw [e2, e1]

theorem matchHeadingAdd_sound :
    ∀ (s : Str) (m : HMatch) (rest : Str),
    matchHeadingAdd s = some (m, rest) → m.whole ++ rest = s := by
  intro s m rest h
  match s with
  | [] => exact Option.noConfusion h
  | [_] => exact Option.noConfusion h
  | [_, _] => exact Option.noConfusion h
  | c0 :: c1 :: d :: r =>
    rw [matchHeadingAdd] at h
    by_cases hcond : c0 = '<' ∧ c1 = 'h' ∧ (d = '2' ∨ d = '3')
    · simp only [if_pos hcond] at h
      obtain ⟨hc0, hc1, _⟩ := hcond
      subst hc0
      subst hc1
      rcases hI : parseIdGrp r with _ | ⟨con1, idv, r1⟩
      · rw [hI] at h
        exact matchHeadingAddB_sound d r m rest h
      · rw [hI] at h
        have h2 : (match parseAttrsGt r1 with
            | none => matchHeadingAddB d r
            | some (con2, att, r2) =>
              match parseBody1 (chars "</h" ++ ([d] ++ chars ">")) r2 with
              | none => matchHeadingAddB d r
              | some (b, rest2) =>
                some ({ lvl := d, idv := some idv, attrs := att, body := b,
                        whole := '<' :: 'h' :: d ::
                          (con1 ++ (con2 ++ (b ++ (chars "</h" ++ ([d] ++ chars ">"))))) },
                      rest2)) = some (m, rest) := h
        rcases hA : parseAttrsGt r1 with _ | ⟨con2, att, r2⟩
        · rw [hA] at h2
          exact matchHeadingAddB_sound d r m rest h2
        · rw [hA] at h2
          have h3 : (match parseBody1 (chars "</h" ++ ([d] ++ chars ">")) r2 with
              | none => matchHeadingAddB d r
              | some (b, rest2) =>
                some ({ lvl := d, idv := some idv, attrs := att, body := b,
                        whole := '<' :: 'h' :: d ::
                          (con1 ++ (con2 ++ (b ++ (chars "</h" ++ ([d] ++ chars ">"))))) },
                      rest2)) = some (m, rest) := h2
          rcases hB : parseBody1 (chars "</h" ++ ([d] ++ chars ">")) r2 with _ | ⟨b, rest2⟩
          · rw [hB] at h3
            exact matchHeadingAddB_sound d r m rest h3
          · rw [hB] at h3
            have hm : ({ lvl := d, idv := some idv, attrs := att, body := b,
                         whole := '<' :: 'h' :: d ::
                           (con1 ++ (con2 ++ (b ++ (chars "</h" ++ ([d] ++ chars ">"))))) } :
                       HMatch) = m :=
              congrArg Prod.fst (Option.some.inj h3)
            have hrest : rest2 = rest := congrArg Prod.snd (Option.some.inj h3)
            subst hrest
            rw [← hm]
            show ('<' :: 'h' :: d ::
                (con1 ++ (con2 ++ (b ++ (chars "</h" ++ ([d] ++ chars ">")))))) ++ rest2 =
              '<' :: 'h' :: d :: r
            have e1 := parseIdGrp_sound r con1 idv r1 hI
            have e2 := parseAttrsGt_sound r1 con2 att r2 hA
            have e3 := parseBody1_sound (chars "</h" ++ ([d] ++ chars ">")) r2 b rest2 hB
            rw [List.cons_append, List.cons_append, List.cons_append]
            rw [List.append_assoc, List.append_assoc, List.append_assoc]
            rw [e3, e2, e1]
    · simp only [if_neg hcond] at h
      exact Option.noConfusion h

/-- When every match of the injection pattern already carries an id, the
injection scan returns every match unchanged (`match.group(0)`), hence the
whole string unchanged, whatever heading list and index it is given. -/
theorem addScan_id (hs : List Heading) :
    ∀ (f : Nat) (s : Str) (i : Nat), allIdScan f s = true → addScan f hs i s = s := by
  intro f
  induction f with
  | zero => intro s i _; rfl
  | succ f ih =>
    intro s i hall
    match s with
    | [] => rfl
    | c :: rest0 =>
      rw [allIdScan] at hall
      rw [addScan]
      rcases hm : matchHeadingAdd (c :: rest0) with _ | ⟨m, rest⟩
      · rw [hm] at hall
        have hall2 : allIdScan f rest0 = true := hall
        show c :: addScan f hs i rest0 = c :: rest0
        rw [ih rest0 i hall2]
      · rw [hm] at hall
        have hall2 : (pyTruthyStr m.idv && allIdScan f rest) = true := hall
        rcases Bool.and_eq_true _ _ |>.mp hall2 with ⟨hsome, hrest⟩
        have hsound := matchHeadingAdd_sound (c :: rest0) m rest hm
        show (if hs.length ≤ i then m.whole ++ addScan f hs i rest
              else
                if pyTruthyStr m.idv then m.whole ++ addScan f hs (i + 1) rest
                else addIdRepl m ((hs.getD i ⟨2, [], []⟩).id) ++
                    addScan f hs (i + 1) rest) = c :: rest0
        by_cases hlen : hs.length ≤ i
        · rw [if_pos hlen, ih rest i hrest, hsound]
        · rw [if_neg hlen, if_pos hsome]
          rw [ih rest (i + 1) hrest, hsound]

/-- C5: running heading extraction followed by id injection on HTML whose
h2/h3 headings all already carry an injected id — a non-empty `id="..."`
directly after the tag name, the form injection produces; an empty `id=""`
is falsy for the program's `if existing_id:` test and does not count —
leaves the HTML unchanged: no existing id is altered and no heading gains a
duplicate id attribute (the count of `id="` occurrences is unchanged). -/
theorem c5_injection_idempotent (html : Str) (h : allInjected html = true) :
    add_heading_ids html (extract_headings html) = html ∧
    countOccur (chars "id=\"") (add_heading_ids html (extract_headings html)) =
      countOccur (chars "id=\"") html := by
  have hmain : add_heading_ids html (extract_headings html) = html :=
    addScan_id (extract_headings html) html.length html 0 h
  exact ⟨hmain, by rw [hmain]⟩

/-- Witness for C5 at concrete already-injected HTML. -/
theorem c5_injection_idempotent_witness :
    allInjected (chars "<h2 id=\"intro\">Intro</h2><p>x</p><h3 id=\"a-b\">A B</h3>") = true ∧
    add_heading_ids (chars "<h2 id=\"intro\">Intro</h2><p>x</p><h3 id=\"a-b\">A B</h3>")
      (extract_headings (chars "<h2 id=\"intro\">Intro</h2><p>x</p><h3 id=\"a-b\">A B</h3>")) =
      chars "<h2 id=\"intro\">Intro</h2><p>x</p><h3 id=\"a-b\">A B</h3>" :=
  ⟨by decide,
   (c5_injection_idempotent
     (chars "<h2 id=\"intro\">Intro</h2><p>x</p><h3 id=\"a-b\">A B</h3>") (by decide)).1⟩

-- =====================================================================
-- Fallback markdown converter: basic_markdown_to_html (build.py 310-481)
-- =====================================================================

/-- The placeholder token `__CODE_BLOCK_{i}__`. -/
def placeholder (i : Nat) : Str := chars "__CODE_BLOCK_" ++ natStr i ++ chars "__"

/-- After an opening fence: `(\w*)\n(.*?)` up to the closing fence
(`re.sub(r"```(\w*)\n(.*?)```", ..., flags=re.DOTALL)`): an optional language
tag (maximal `\w*`, exact since `\n` is not a word character), a mandatory
newline, then the lazy body up to the first closing triple backtick. -/
def fenceMatch (s1 : Str) : Option (Str × Str) :=
  match s1.dropWhile isWordChar with
  | '\n' :: s3 => findClose (chars "```") s3
  | _ => none

/-- The fence-extraction scan: replaces each fenced block with its numbered
placeholder and collects the interior texts in order. -/
def fenceScan : Nat → Nat → Str → Str × List Str
  | 0, _, s => (s, [])
  | _ + 1, _, [] => ([], [])
  | f + 1, n, s@(c :: rest0) =>
    if isPfx (chars "```") s then
      match fenceMatch (s.drop 3) with
      | some (code, rest) =>
        let p := fenceScan f (n + 1) rest
        (placeholder n ++ p.1, code :: p.2)
      | none =>
        let p := fenceScan f n rest0
        (c :: p.1, p.2)
    else
      let p := fenceScan f n rest0
      (c :: p.1, p.2)

/-- One MULTILINE header rule `^PRE (.+)$`: applied line-wise, the remainder
must be non-empty. -/
def headerLine (pre openT closeT : Str) (l : Str) : Str :=
  match dropPfx pre l with
  | some r => if r = [] then l else openT ++ r ++ closeT
  | none => l

/-- Apply a line transformation to every line (MULTILINE regex on `^...$`
with a replacement that contains no newline). -/
def mapLines (g : Str → Str) (s : Str) : Str :=
  joinSep (chars "\n") ((splitNl s).map g)

/-- Lazy one-or-more body without newline, then the literal close:
`(.+?)close` without re.DOTALL. -/
def findCloseNl1 (close : Str) : Str → Option (Str × Str)
  | [] => none
  | c :: r =>
    if c = '\n' then none
    else
      match findCloseNl close r with
      | some (b, rest) => some (c :: b, rest)
      | none => none

/-- One inline pass `open(.+?)close` (no DOTALL): bold, italic, inline code. -/
def subLazyNl (openS closeS wrapL wrapR : Str) : Nat → Str → Str
  | 0, s => s
  | _ + 1, [] => []
  | f + 1, s@(c :: rest0) =>
    if isPfx openS s then
      match findCloseNl1 closeS (s.drop openS.length) with
      | some (b, rest) => wrapL ++ b ++ wrapR ++ subLazyNl openS closeS wrapL wrapR f rest
      | none => c :: subLazyNl openS closeS wrapL wrapR f rest0
    else c :: subLazyNl openS closeS wrapL wrapR f rest0

/-- The lazy url part `\((.+?)\)` of the link pattern. -/
def linkUrl (s : Str) : Option (Str × Str) := findCloseNl1 (chars ")") s

/-- Label continuation of `\[(.+?)\]\((.+?)\)`: find the first `](` whose url
part succeeds; when the url part fails the label is extended past this `](`
(regex backtracking). -/
def linkRest : Str → Option (Str × Str × Str)
  | [] => none
  | s@(c :: r) =>
    if isPfx (chars "](") s then
      match linkUrl (s.drop 2) with
      | some (url, rest) => some ([], url, rest)
      | none =>
        if c = '\n' then none
        else
          match linkRest r with
          | some (lab, url, rest) => some (c :: lab, url, rest)
          | none => none
    else if c = '\n' then none
    else
      match linkRest r with
      | some (lab, url, rest) => some (c :: lab, url, rest)
      | none => none

/-- Match the link pattern after a `[`: label of at least one character. -/
def linkMatch : Str → Option (Str × Str × Str)
  | [] => none
  | c :: r =>
    if c = '\n' then none
    else
      match linkRest r with
      | some (lab, url, rest) => some (c :: lab, url, rest)
      | none => none

/-- The link pass `re.sub(r"\[(.+?)\]\((.+?)\)", r'<a href="\2">\1</a>', ...)`. -/
def linkSub : Nat → Str → Str
  | 0, s => s
  | _ + 1, [] => []
  | f + 1, c :: rest0 =>
    if c = '[' then
      match linkMatch rest0 with
      | some (lab, url, rest) =>
        chars "<a href=\"" ++ url ++ chars "\">" ++ lab ++ chars "</a>" ++ linkSub f rest
      | none => c :: linkSub f rest0
    else c :: linkSub f rest0

/-- List kinds of `_convert_lists`. -/
inductive LType where
  | ul
  | ol
deriving DecidableEq

/-- `re.match(r"^(\d+)\.\s+(.+)$", stripped)`: digits, a dot, one-or-more
whitespace, a non-empty remainder.  When the remainder after maximal `\s+`
would be empty, the regex backtracks giving one space back to `(.+)`
(unreachable for stripped lines, kept for fidelity). -/
def olMatch (l : Str) : Option Str :=
  match (l.takeWhile Char.isDigit, l.dropWhile Char.isDigit) with
  | (ds, r) =>
    if ds = [] then none
    else
      match r with
      | '.' :: r2 =>
        match (r2.takeWhile isPySpace, r2.dropWhile isPySpace) with
        | (sp, r3) =>
          if sp = [] then none
          else if r3 ≠ [] then some r3
          else if 2 ≤ sp.length then some (sp.drop 1)
          else none
      | _ => none

def liWrap (item : Str) : Str := chars "<li>" ++ item ++ chars "</li>"

/-- `_render_list` (build.py 403-408). -/
def renderList : Option LType → List Str → Str
  | none, _ => []
  | some t, items =>
    if items = [] then []
    else
      (match t with | .ul => chars "<ul>" | .ol => chars "<ol>") ++ chars "\n" ++
      joinSep (chars "\n") (items.map liWrap) ++ chars "\n" ++
      (match t with | .ul => chars "</ul>" | .ol => chars "</ol>")

/-- The line loop of `_convert_lists` (build.py 361-400). -/
def listsGo : List Str → Bool → Option LType → List Str → List Str
  | [], inl, t, items => if inl then [renderList t items] else []
  | line :: rest, inl, t, items =>
    if isPfx (chars "- ") (pyTrim line) then
      if inl ∧ t ≠ some .ul then
        renderList t items :: listsGo rest true (some .ul) [(pyTrim line).drop 2]
      else listsGo rest true (some .ul) (items ++ [(pyTrim line).drop 2])
    else
      match olMatch (pyTrim line) with
      | some content =>
        if inl ∧ t ≠ some .ol then
          renderList t items :: listsGo rest true (some .ol) [content]
        else listsGo rest true (some .ol) (items ++ [content])
      | none =>
        if inl then renderList t items :: line :: listsGo rest false none []
        else line :: listsGo rest false none []

/-- `_convert_lists` (build.py 361-400). -/
def convertLists (text : Str) : Str :=
  joinSep (chars "\n") (listsGo (splitNl text) false none [])

/-- Python `row.split("|")`. -/
def splitPipe : Str → List Str
  | [] => [[]]
  | c :: rest => if c = '|' then [] :: splitPipe rest else consHead c (splitPipe rest)

/-- `[cell.strip() for cell in row.split("|")[1:-1]]`. -/
def cellsOf (row : Str) : List Str := (((splitPipe row).drop 1).dropLast).map pyTrim

def thWrap (c : Str) : Str := chars "<th>" ++ c ++ chars "</th>"

def tdWrap (c : Str) : Str := chars "<td>" ++ c ++ chars "</td>"

/-- `_render_table` (build.py 437-462). -/
def renderTable (rows : List Str) : Str :=
  if rows.length < 2 then joinSep (chars "\n") rows
  else
    joinSep (chars "\n")
      ([chars "<table>", chars "<thead><tr>"] ++
       (cellsOf (rows.headD [])).map thWrap ++
       [chars "</tr></thead>", chars "<tbody>"] ++
       ((rows.drop 2).map (fun row =>
         chars "<tr>" :: ((cellsOf row).map tdWrap ++ [chars "</tr>"]))).flatten ++
       [chars "</tbody>", chars "</table>"])

/-- The line loop of `_convert_tables` (build.py 411-434). -/
def tablesGo : List Str → Bool → List Str → List Str
  | [], int, rows => if int then [renderTable rows] else []
  | line :: rest, int, rows =>
    if isPfx (chars "|") (pyTrim line) ∧ isSfx (chars "|") (pyTrim line) then
      tablesGo rest true (rows ++ [pyTrim line])
    else
      if int then renderTable rows :: line :: tablesGo rest false []
      else line :: tablesGo rest false []

/-- `_convert_tables` (build.py 411-434). -/
def convertTables (text : Str) : Str :=
  joinSep (chars "\n") (tablesGo (splitNl text) false [])

/-- Python `text.split("\n\n")`. -/
def splitDblNl : Str → List Str
  | [] => [[]]
  | '\n' :: '\n' :: rest => [] :: splitDblNl rest
  | c :: rest => consHead c (splitDblNl rest)

/-- The `block_prefixes` test of `_wrap_paragraphs` (build.py 470-476). -/
def isBlockPfx (p : Str) : Bool :=
  isPfx (chars "<h") p || isPfx (chars "<pre") p || isPfx (chars "<ul") p ||
  isPfx (chars "<ol") p || isPfx (chars "<table") p || isPfx (chars "__CODE_BLOCK_") p

/-- `_wrap_paragraphs` (build.py 465-481). -/
def wrapParagraphs (text : Str) : Str :=
  joinSep (chars "\n\n")
    ((splitDblNl text).filterMap (fun p0 =>
      if pyTrim p0 = [] then none
      else if isBlockPfx (pyTrim p0) then some (pyTrim p0)
      else some (chars "<p>" ++ pyTrim p0 ++ chars "</p>")))

/-- The restoration loop (build.py 355-356): for each block index in order,
replace every occurrence of its placeholder with the `<pre><code>` block. -/
def restoreBlocks (blocks : List Str) (text : Str) : Str :=
  (blocks.enum).foldl
    (fun t ic =>
      replaceAll (placeholder ic.1)
        (chars "<pre><code>" ++ ic.2 ++ chars "</code></pre>") t)
    text

/-- `basic_markdown_to_html` (build.py 310-358): extract fences behind
placeholders, headers (h3 before h2 before h1), bold then italic, inline
code, links, lists, tables, paragraph wrapping, then placeholder
restoration. -/
def basic_markdown_to_html (text : Str) : Str :=
  let p := fenceScan text.length 0 text
  let t2 := mapLines (headerLine (chars "### ") (chars "<h3>") (chars "</h3>")) p.1
  let t3 := mapLines (headerLine (chars "## ") (chars "<h2>") (chars "</h2>")) t2
  let t4 := mapLines (headerLine (chars "# ") (chars "<h1>") (chars "</h1>")) t3
  let t5 := subLazyNl (chars "**") (chars "**") (chars "<strong>") (chars "</strong>")
    t4.length t4
  let t6 := subLazyNl (chars "*") (chars "*") (chars "<em>") (chars "</em>") t5.length t5
  let t7 := subLazyNl (chars "`") (chars "`") (chars "<code>") (chars "</code>")
    t6.length t6
  let t8 := linkSub t7.length t7
  let t9 := convertLists t8
  let t10 := convertTables t9
  let t11 := wrapParagraphs t10
  restoreBlocks p.2 t11

/-- C8 (code bug): the fenced-code extraction does protect interiors from the
markdown rules (third and fourth conjuncts: a block containing `#` and `**`
is reproduced verbatim, and `# Header One` yields `<h1>Header One</h1>`), but
the sequential placeholder-restoration loop is not opaque: for an input whose
FIRST code block's interior is the literal text `__CODE_BLOCK_1__`, the later
restoration pass for block 1 rewrites the already-restored interior of block
0, so block 0's interior is not reproduced byte-for-byte — it appears nowhere
in the output (second conjunct), which instead contains a nested
`<pre><code>` (first conjunct). -/
theorem c8_code_block_restoration :
    basic_markdown_to_html (chars "```\n__CODE_BLOCK_1__\n```\n\n```\nhello\n```") =
      chars "<pre><code><pre><code>hello\n</code></pre>\n</code></pre>\n\n<pre><code>hello\n</code></pre>" ∧
    occursB (chars "__CODE_BLOCK_1__")
      (basic_markdown_to_html (chars "```\n__CODE_BLOCK_1__\n```\n\n```\nhello\n```")) =
      false ∧
    basic_markdown_to_html (chars "```\n# not a header\n**not bold**\n```") =
      chars "<pre><code># not a header\n**not bold**\n</code></pre>" ∧
    occursB (chars "<h1>Header One</h1>")
      (basic_markdown_to_html (chars "# Header One")) = true :=
  ⟨by decide, by decide, by decide, by decide⟩
